import Mathlib

/-!
Verification of the TemplateSMD micro-templating engine.

The definitions below are a shallow embedding of the `TemplateSMD` class
(the full version of the engine: the class carrying partials, HTML
escaping, the `\x7b\x7b\x7b ... \x7d\x7d\x7d` raw interpolation form and the
template cache).  JavaScript strings are modelled as `List Char`,
JavaScript values as the inductive `Value` (`undefined` is modelled by
`Option.none` at lookup boundaries), and the `RegExp.replace` based
scanning passes are modelled by explicit left-to-right scanners that
reproduce the matching behaviour of the concrete regular expressions
used by the source (lazy body capture up to the nearest close tag,
greedy character classes, optional default-literal groups with their
backtracking behaviour, and no re-scanning of replacement text within a
single pass).  General recursion of the renderer (partials may recurse
unboundedly) is modelled with a fuel parameter: `none` means the
computation does not terminate within the given fuel.  `console.warn`
messages (missing partials) are collected in a warning list.
-/

namespace TemplateSMD

/-- JavaScript strings, modelled as lists of characters. -/
abbrev Str := List Char

/-- The left brace character (written numerically so that brace
characters never appear literally in the file). -/
def lbrace : Char := Char.ofNat 123

/-- The right brace character. -/
def rbrace : Char := Char.ofNat 125

/-- JavaScript values occurring in a binding context: strings, numbers
(integer-valued; `NaN` is kept as a separate tag since only its
truthiness and textual form matter), booleans, `null`, arrays and plain
objects.  `undefined` is represented by `Option.none` at the points
where lookups can fail. -/
inductive Value where
  | vStr (s : Str)
  | vNum (n : Int)
  | vNaN
  | vBool (b : Bool)
  | vNull
  | vArr (elems : List Value)
  | vObj (fields : List (Str × Value))

open Value

/-- Whether a value is JavaScript `null`. -/
def Value.isNull : Value → Bool
  | vNull => true
  | _ => false

/-- JavaScript truthiness of a value (`Boolean(v)`): falsy values are
`null`, `false`, `0`, `NaN` and the empty string; everything else
(including empty arrays and empty objects) is truthy. -/
def truthy : Value → Bool
  | vStr s => !s.isEmpty
  | vNum n => n != 0
  | vNaN => false
  | vBool b => b
  | vNull => false
  | vArr _ => true
  | vObj _ => true

/-- Truthiness of a possibly-`undefined` value: `undefined` is falsy. -/
def truthyOpt : Option Value → Bool
  | none => false
  | some v => truthy v

/-- First-match association lookup (JavaScript object property access /
`Map.get` on string keys). -/
def assocLookup {α : Type} : List (Str × α) → Str → Option α
  | [], _ => none
  | (k, a) :: rest, key => if k = key then some a else assocLookup rest key

/-- Decimal digits of a natural number, most significant first
(auxiliary, fuel-driven so that it is structurally recursive). -/
def natDigitsAux : Nat → Nat → Str
  | 0, _ => []
  | f + 1, n => if n = 0 then [] else natDigitsAux f (n / 10) ++ [Char.ofNat (48 + n % 10)]

/-- Decimal representation of a natural number, as produced by
JavaScript `String(n)` for a nonnegative integer. -/
def natToStr (n : Nat) : Str :=
  if n = 0 then ['0'] else natDigitsAux (n + 1) n

/-- Decimal representation of an integer, as produced by JavaScript
`String(n)` for an integer-valued number. -/
def intToStr (i : Int) : Str :=
  if i < 0 then '-' :: natToStr i.natAbs else natToStr i.natAbs

/-- JSON escaping of the characters of a string
(`JSON.stringify` on a string value, between the quotes): `"` and `\`
are escaped, the control characters with short escapes use them, other
control characters use a `\u00XX` escape. -/
def jsonEscapeChar (c : Char) : Str :=
  if c = '"' then ['\\', '"']
  else if c = '\\' then ['\\', '\\']
  else if c = Char.ofNat 8 then ['\\', 'b']
  else if c = Char.ofNat 9 then ['\\', 't']
  else if c = Char.ofNat 10 then ['\\', 'n']
  else if c = Char.ofNat 12 then ['\\', 'f']
  else if c = Char.ofNat 13 then ['\\', 'r']
  else if c.toNat < 32 then
    ['\\', 'u', '0', '0', Char.ofNat (if c.toNat / 16 < 10 then 48 + c.toNat / 16 else 87 + c.toNat / 16),
      Char.ofNat (if c.toNat % 16 < 10 then 48 + c.toNat % 16 else 87 + c.toNat % 16)]
  else [c]

/-- JSON string quoting (`JSON.stringify` applied to a string). -/
def jsonQuote (s : Str) : Str :=
  '"' :: (s.flatMap jsonEscapeChar) ++ ['"']

mutual
/-- `JSON.stringify` on a `Value` (no cycles exist in the inductive
model, so the serialization always succeeds; `NaN` serializes to
`null`, matching JavaScript). -/
def jsonStringify : Value → Str
  | vStr s => jsonQuote s
  | vNum n => intToStr n
  | vNaN => 'n' :: 'u' :: 'l' :: 'l' :: []
  | vBool b => if b then 't' :: 'r' :: 'u' :: 'e' :: [] else 'f' :: 'a' :: 'l' :: 's' :: 'e' :: []
  | vNull => 'n' :: 'u' :: 'l' :: 'l' :: []
  | vArr xs => '[' :: jsonList xs ++ [']']
  | vObj fs => lbrace :: jsonFields fs ++ [rbrace]

/-- Comma-separated serialization of array elements. -/
def jsonList : List Value → Str
  | [] => []
  | [x] => jsonStringify x
  | x :: y :: rest => jsonStringify x ++ ',' :: jsonList (y :: rest)

/-- Comma-separated serialization of object fields. -/
def jsonFields : List (Str × Value) → Str
  | [] => []
  | [(k, v)] => jsonQuote k ++ ':' :: jsonStringify v
  | (k, v) :: f :: rest => jsonQuote k ++ ':' :: jsonStringify v ++ ',' :: jsonFields (f :: rest)
end

/-- `#stringifyValue(value)`: `null`/`undefined` become the empty
string (the `undefined` case is handled at call sites, which pass a
present `Value`); strings are returned as-is; numbers and booleans use
their canonical textual form; other values are JSON-serialized. -/
def stringifyValue : Value → Str
  | vNull => []
  | vStr s => s
  | vNum n => intToStr n
  | vNaN => 'N' :: 'a' :: 'N' :: []
  | vBool b => if b then 't' :: 'r' :: 'u' :: 'e' :: [] else 'f' :: 'a' :: 'l' :: 's' :: 'e' :: []
  | vArr xs => jsonStringify (vArr xs)
  | vObj fs => jsonStringify (vObj fs)

/-- Global single-character replacement,
`s.replace(/c/g, rep)` for a single character `c`. -/
def replaceCh (c : Char) (rep : Str) (s : Str) : Str :=
  s.flatMap (fun x => if x = c then rep else [x])

/-- The five entity replacement strings. -/
def ampEnt : Str := '&' :: 'a' :: 'm' :: 'p' :: ';' :: []

/-- Entity for `<`. -/
def ltEnt : Str := '&' :: 'l' :: 't' :: ';' :: []

/-- Entity for `>`. -/
def gtEnt : Str := '&' :: 'g' :: 't' :: ';' :: []

/-- Entity for `"`. -/
def quotEnt : Str := '&' :: 'q' :: 'u' :: 'o' :: 't' :: ';' :: []

/-- Entity for `'`. -/
def aposEnt : Str := '&' :: '#' :: '3' :: '9' :: ';' :: []

/-- HTML escaping of a string: replace, in this order, `&`, `<`, `>`,
`"`, `'` by their entities (the chained `.replace` calls of
`#escapeHtml`, after stringification). -/
def escapeStr (s : Str) : Str :=
  replaceCh '\'' aposEnt
    (replaceCh '"' quotEnt
      (replaceCh '>' gtEnt
        (replaceCh '<' ltEnt
          (replaceCh '&' ampEnt s))))

/-- `#escapeHtml(value)`: stringify, then apply the five ordered
replacements. -/
def escapeHtml (v : Value) : Str :=
  escapeStr (stringifyValue v)

/-- Canonical decimal index parsing used by JavaScript array/string
indexing with a string key: the key must be the canonical decimal form
of the index (no leading zeros except for `"0"` itself). -/
def parseArrayIndex (key : Str) : Option Nat :=
  if key.isEmpty then none
  else if key.all (fun c => '0' ≤ c ∧ c ≤ '9') then
    if key.head? = some '0' ∧ key.length > 1 then none
    else some (key.foldl (fun acc c => acc * 10 + (c.toNat - 48)) 0)
  else none

/-- The string `length`. -/
def lengthKey : Str := 'l' :: 'e' :: 'n' :: 'g' :: 't' :: 'h' :: []

/-- A single JavaScript property access `v[key]` on the data model:
objects look up their fields, arrays and strings expose `length` and
canonical numeric indices, and every other access yields `undefined`. -/
def indexValue : Value → Str → Option Value
  | vObj fs, key => assocLookup fs key
  | vArr xs, key =>
      if key = lengthKey then some (vNum xs.length)
      else match parseArrayIndex key with
        | some i => xs.get? i
        | none => none
  | vStr s, key =>
      if key = lengthKey then some (vNum s.length)
      else match parseArrayIndex key with
        | some i => (s.get? i).map (fun c => vStr [c])
        | none => none
  | _, _ => none

/-- `path.split('.')` for the dot character: splits at every dot,
producing at least one (possibly empty) part. -/
def splitOnDot : Str → List Str
  | [] => [[]]
  | c :: rest =>
      if c = '.' then [] :: splitOnDot rest
      else match splitOnDot rest with
        | [] => [[c]]
        | p :: ps => (c :: p) :: ps

/-- One step of the `reduce` inside `#getNestedValue`:
`acc == null ? undefined : acc[part]` (where `none` models
`undefined`). -/
def nestedStep (acc : Option Value) (part : Str) : Option Value :=
  match acc with
  | none => none
  | some v => if v.isNull then none else indexValue v part

/-- `#getNestedValue(obj, pathKey)`: guard against a `null`-ish root,
split the path on dots, and fold left-to-right with `nestedStep`,
short-circuiting to `undefined` as soon as the accumulated value is
`null`/`undefined`. -/
def getNestedValue (obj : Value) (pathKey : Str) : Option Value :=
  if obj.isNull then none
  else (splitOnDot pathKey).foldl nestedStep (some obj)

/-! ### Character classes of the regular expressions -/

/-- JavaScript `\s`: whitespace and line terminators. -/
def isSpaceJS (c : Char) : Bool :=
  c = ' ' ∨ c = Char.ofNat 9 ∨ c = Char.ofNat 10 ∨ c = Char.ofNat 11 ∨
  c = Char.ofNat 12 ∨ c = Char.ofNat 13 ∨ c = Char.ofNat 0xa0 ∨
  c = Char.ofNat 0x1680 ∨ (Char.ofNat 0x2000 ≤ c ∧ c ≤ Char.ofNat 0x200a) ∨
  c = Char.ofNat 0x2028 ∨ c = Char.ofNat 0x2029 ∨ c = Char.ofNat 0x202f ∨
  c = Char.ofNat 0x205f ∨ c = Char.ofNat 0x3000 ∨ c = Char.ofNat 0xfeff

/-- JavaScript `\w`: ASCII letters, digits and underscore. -/
def isWordChar (c : Char) : Bool :=
  ('a' ≤ c ∧ c ≤ 'z') ∨ ('A' ≤ c ∧ c ≤ 'Z') ∨ ('0' ≤ c ∧ c ≤ '9') ∨ c = '_'

/-- The path character class `[\w.]`, extended to `[\w.@]` inside loop
bodies. -/
def isKeyChar (allowAt : Bool) (c : Char) : Bool :=
  isWordChar c ∨ c = '.' ∨ (allowAt ∧ c = '@')

/-- The partial name character class (word characters, dot, slash,
dash). -/
def isPartialNameChar (c : Char) : Bool :=
  isWordChar c ∨ c = '.' ∨ c = '/' ∨ c = '-'

/-- A quote character of the default-literal group, `["']`. -/
def isQuote (c : Char) : Bool :=
  c = '"' ∨ c = '\''

/-- JavaScript `.` (without the `s` flag): any character except the
four line terminators. -/
def isJsDot (c : Char) : Bool :=
  ¬ (c = Char.ofNat 10 ∨ c = Char.ofNat 13 ∨ c = Char.ofNat 0x2028 ∨ c = Char.ofNat 0x2029)

/-! ### Literal pattern fragments -/

/-- Strip an exact literal pattern from the front of a string. -/
def stripLit : Str → Str → Option Str
  | [], s => some s
  | _, [] => none
  | p :: ps, c :: cs => if c = p then stripLit ps cs else none

/-- The opening of an `#if` block tag. -/
def ifOpenPat : Str := lbrace :: lbrace :: '#' :: 'i' :: 'f' :: []

/-- The literal `#if` close tag. -/
def ifClosePat : Str := lbrace :: lbrace :: '/' :: 'i' :: 'f' :: rbrace :: rbrace :: []

/-- The opening of an `#unless` block tag. -/
def unlessOpenPat : Str := lbrace :: lbrace :: '#' :: 'u' :: 'n' :: 'l' :: 'e' :: 's' :: 's' :: []

/-- The literal `#unless` close tag. -/
def unlessClosePat : Str :=
  lbrace :: lbrace :: '/' :: 'u' :: 'n' :: 'l' :: 'e' :: 's' :: 's' :: rbrace :: rbrace :: []

/-- The opening of an `#each` block tag. -/
def eachOpenPat : Str := lbrace :: lbrace :: '#' :: 'e' :: 'a' :: 'c' :: 'h' :: []

/-- The literal `#each` close tag. -/
def eachClosePat : Str :=
  lbrace :: lbrace :: '/' :: 'e' :: 'a' :: 'c' :: 'h' :: rbrace :: rbrace :: []

/-- The opening of a partial inclusion tag. -/
def partialOpenPat : Str := lbrace :: lbrace :: '>' :: []

/-- Two closing braces. -/
def closeBraces2 : Str := rbrace :: rbrace :: []

/-- Three closing braces. -/
def closeBraces3 : Str := rbrace :: rbrace :: rbrace :: []

/-- Two opening braces. -/
def openBraces2 : Str := lbrace :: lbrace :: []

/-- Three opening braces. -/
def openBraces3 : Str := lbrace :: lbrace :: lbrace :: []

/-- The literal word `empty`. -/
def emptyWordPat : Str := 'e' :: 'm' :: 'p' :: 't' :: 'y' :: []

/-! ### Tag matchers

Each matcher attempts the corresponding regular expression at the start
of the given string and, on success, returns the captures and the text
following the match. -/

/-- Find the first occurrence of a literal close tag, returning the
text before it (the lazy body capture `([\s\S]*?)`) and the text after
it. -/
def findClose (pat : Str) : Str → Option (Str × Str)
  | [] => (stripLit pat []).map (fun rest => (([] : Str), rest))
  | c :: cs =>
    match stripLit pat (c :: cs) with
    | some rest => some ([], rest)
    | none => (findClose pat cs).map (fun p => (c :: p.1, p.2))

/-- Shared tail of the three block-tag matchers: after the literal
opening (`\x7b\x7b#if` etc.) match `\s+([\w.]+)\s*\x7d\x7d`, then capture
lazily up to the close tag.  Returns `(key, body, rest)`. -/
def matchBlockRest (closePat : Str) (afterOpen : Str) : Option (Str × Str × Str) :=
  match afterOpen with
  | [] => none
  | c :: cs =>
    if isSpaceJS c then
      let afterWs := cs.dropWhile isSpaceJS
      let key := afterWs.takeWhile (isKeyChar false)
      if key.isEmpty then none
      else
        let afterKey := (afterWs.dropWhile (isKeyChar false)).dropWhile isSpaceJS
        match stripLit closeBraces2 afterKey with
        | none => none
        | some afterHeader =>
          match findClose closePat afterHeader with
          | none => none
          | some (body, rest) => some (key, body, rest)
    else none

/-- Match `\x7b\x7b#if\s+([\w.]+)\s*\x7d\x7d([\s\S]*?)\x7b\x7b/if\x7d\x7d` at the
start of the string. -/
def matchIfTag (s : Str) : Option (Str × Str × Str) :=
  match stripLit ifOpenPat s with
  | none => none
  | some afterOpen => matchBlockRest ifClosePat afterOpen

/-- Match the `#unless` block tag at the start of the string. -/
def matchUnlessTag (s : Str) : Option (Str × Str × Str) :=
  match stripLit unlessOpenPat s with
  | none => none
  | some afterOpen => matchBlockRest unlessClosePat afterOpen

/-- Match the `#each` block tag at the start of the string. -/
def matchEachTag (s : Str) : Option (Str × Str × Str) :=
  match stripLit eachOpenPat s with
  | none => none
  | some afterOpen => matchBlockRest eachClosePat afterOpen

/-- Match a partial inclusion tag (literal open, `\s*`, a nonempty run
of partial-name characters, `\s*`, two closing braces) at the start of
the string, returning `(name, rest)`. -/
def matchPartialTag (s : Str) : Option (Str × Str) :=
  match stripLit partialOpenPat s with
  | none => none
  | some afterOpen =>
    let afterWs := afterOpen.dropWhile isSpaceJS
    let name := afterWs.takeWhile isPartialNameChar
    if name.isEmpty then none
    else
      let afterName := (afterWs.dropWhile isPartialNameChar).dropWhile isSpaceJS
      (stripLit closeBraces2 afterName).map (fun rest => (name, rest))

/-- The lazy default-literal capture `(.*?)["']` followed by
`\s*` and the closing braces: scan for the first quote character whose
suffix matches `\s*` plus the close; a quote character whose suffix
does not match is absorbed into the capture (the regex extends the lazy
`.*?`), and a line terminator fails the group (`.` does not match line
terminators). -/
def scanDefaultLit (closePat : Str) : Str → Option (Str × Str)
  | [] => none
  | c :: cs =>
    if isQuote c then
      match stripLit closePat (cs.dropWhile isSpaceJS) with
      | some rest => some ([], rest)
      | none =>
        if isJsDot c then (scanDefaultLit closePat cs).map (fun p => (c :: p.1, p.2))
        else none
    else if isJsDot c then (scanDefaultLit closePat cs).map (fun p => (c :: p.1, p.2))
    else none

/-- The optional default group `(\s*\|\|\s*["'](.*?)["'])?` followed by
`\s*` and the closing braces: try the group first; on failure fall back
to matching just `\s*` and the close.  Returns the optional captured
default literal and the text after the close. -/
def matchDefaultAndClose (closePat : Str) (afterKey : Str) : Option (Option Str × Str) :=
  let groupAttempt :=
    match stripLit ('|' :: '|' :: []) (afterKey.dropWhile isSpaceJS) with
    | none => none
    | some afterBars =>
      match afterBars.dropWhile isSpaceJS with
      | [] => none
      | q :: afterQuote =>
        if isQuote q then
          (scanDefaultLit closePat afterQuote).map (fun p => (some p.1, p.2))
        else none
  match groupAttempt with
  | some r => some r
  | none =>
    (stripLit closePat (afterKey.dropWhile isSpaceJS)).map (fun rest => ((none : Option Str), rest))

/-- Match an interpolation placeholder
`\x7b\x7b\s*([\w.@]+)(\s*\|\|\s*["'](.*?)["'])?\s*\x7d\x7d` (or its
triple-brace variant) at the start of the string, returning
`(key, optional default, rest)`. -/
def matchInterp (openPat closePat : Str) (allowAt : Bool) (s : Str) : Option (Str × Option Str × Str) :=
  match stripLit openPat s with
  | none => none
  | some afterOpen =>
    let afterWs := afterOpen.dropWhile isSpaceJS
    let key := afterWs.takeWhile (isKeyChar allowAt)
    if key.isEmpty then none
    else
      let afterKey := afterWs.dropWhile (isKeyChar allowAt)
      (matchDefaultAndClose closePat afterKey).map (fun p => (key, p.1, p.2))

/-- Match the `\x7b\x7b\s*empty\s*\x7d\x7d` separator at the start of the
string, returning the rest. -/
def matchEmptyTag (s : Str) : Option Str :=
  match stripLit openBraces2 s with
  | none => none
  | some afterOpen =>
    match stripLit emptyWordPat (afterOpen.dropWhile isSpaceJS) with
    | none => none
    | some afterWord => stripLit closeBraces2 (afterWord.dropWhile isSpaceJS)

/-! ### Loop-scoped resolution -/

/-- The identifier `this`. -/
def thisKey : Str := 't' :: 'h' :: 'i' :: 's' :: []

/-- The identifier `@index`. -/
def atIndexKey : Str := '@' :: 'i' :: 'n' :: 'd' :: 'e' :: 'x' :: []

/-- The identifier `@order`. -/
def atOrderKey : Str := '@' :: 'o' :: 'r' :: 'd' :: 'e' :: 'r' :: []

/-- The prefix `this.` of item-scoped dotted paths. -/
def thisDotPat : Str := 't' :: 'h' :: 'i' :: 's' :: '.' :: []

/-- `#resolveLoopValue(item, key, index, bindings)`: `this`, `@index`
and `@order` are loop-locals; a key starting with `this.` resolves the
remaining path against the item; any other key resolves against the
item first (a present `null` counts as found) and falls back to the
outer bindings. -/
def resolveLoopValue (item : Value) (key : Str) (index : Nat) (bindings : Value) : Option Value :=
  if key = thisKey then some item
  else if key = atIndexKey then some (vNum index)
  else if key = atOrderKey then some (vNum (index + 1))
  else
    match stripLit thisDotPat key with
    | some rest => getNestedValue item rest
    | none =>
      match getNestedValue item key with
      | some v => some v
      | none => getNestedValue bindings key

/-! ### Interpolation passes -/

/-- Raw interpolation callback (triple braces): a present non-`null`
value is stringified without escaping; otherwise the raw default
literal, if given; otherwise empty text. -/
def rawInterpCb (resolve : Str → Option Value) (key : Str) (dflt : Option Str) : Str :=
  match resolve key with
  | some v =>
    if v.isNull then (match dflt with | some d => d | none => [])
    else stringifyValue v
  | none => match dflt with | some d => d | none => []

/-- Escaped interpolation callback (double braces): a present
non-`null` value is HTML-escaped; otherwise the default literal is
HTML-escaped; otherwise empty text. -/
def escInterpCb (resolve : Str → Option Value) (key : Str) (dflt : Option Str) : Str :=
  match resolve key with
  | some v =>
    if v.isNull then (match dflt with | some d => escapeStr d | none => [])
    else escapeHtml v
  | none => match dflt with | some d => escapeStr d | none => []

/-- Generic single interpolation pass: scan left to right, replacing
each placeholder match by the callback's text (replacement text is not
re-scanned by the same pass, matching `String.replace`); the fuel is
seeded with the text length (every step consumes at least one
character). -/
def interpScanAux (openPat closePat : Str) (allowAt : Bool)
    (cb : Str → Option Str → Str) : Nat → Str → Str
  | 0, s => s
  | _ + 1, [] => []
  | sf + 1, c :: cs =>
    match matchInterp openPat closePat allowAt (c :: cs) with
    | some (key, dflt, rest) =>
        cb key dflt ++ interpScanAux openPat closePat allowAt cb sf rest
    | none => c :: interpScanAux openPat closePat allowAt cb sf cs

/-- `#replacePlaceholders(html, bindings)`: the raw (triple-brace) pass
followed by the escaped (double-brace) pass, both resolving with
`#getNestedValue` and without `@` in the key class. -/
def replacePlaceholders (ctx : Value) (s : Str) : Str :=
  let s1 := interpScanAux openBraces3 closeBraces3 false
    (rawInterpCb (getNestedValue ctx)) s.length s
  interpScanAux openBraces2 closeBraces2 false
    (escInterpCb (getNestedValue ctx)) s1.length s1

/-- The raw interpolation pass applied to a loop body (key class
includes `@`, resolution via `#resolveLoopValue`). -/
def loopReplaceRaw (item : Value) (index : Nat) (bindings : Value) (s : Str) : Str :=
  interpScanAux openBraces3 closeBraces3 true
    (rawInterpCb (fun k => resolveLoopValue item k index bindings)) s.length s

/-- The escaped interpolation pass applied to a loop body. -/
def loopReplaceEsc (item : Value) (index : Nat) (bindings : Value) (s : Str) : Str :=
  interpScanAux openBraces2 closeBraces2 true
    (escInterpCb (fun k => resolveLoopValue item k index bindings)) s.length s

/-! ### The loop pass -/

/-- `content.split` on the `empty` separator tag: every match is a
part boundary. -/
def splitEmptyAux : Nat → Str → List Str
  | 0, s => [s]
  | sf + 1, s =>
    match matchEmptyTag s with
    | some rest => [] :: splitEmptyAux sf rest
    | none =>
      match s with
      | [] => [[]]
      | c :: cs =>
        match splitEmptyAux sf cs with
        | [] => [[c]]
        | p :: ps => (c :: p) :: ps

/-- Split a loop body on the `empty` separator. -/
def splitOnEmptyTag (s : Str) : List Str := splitEmptyAux s.length s

/-- The enumerated own properties of a spread array or string
(index-keyed). -/
def enumFieldsAux : Nat → List Value → List (Str × Value)
  | _, [] => []
  | i, x :: xs => (natToStr i, x) :: enumFieldsAux (i + 1) xs

/-- The own enumerable properties contributed by `...bindings` in an
object literal: objects spread their fields, arrays and strings their
indexed elements, primitives nothing. -/
def spreadFields : Value → List (Str × Value)
  | vObj fs => fs
  | vArr xs => enumFieldsAux 0 xs
  | vStr s => enumFieldsAux 0 (s.map (fun c => vStr [c]))
  | _ => []

/-- Property update of an object-literal field list: an existing key is
overwritten in place, a new key is appended. -/
def setField (fs : List (Str × Value)) (key : Str) (v : Value) : List (Str × Value) :=
  match fs with
  | [] => [(key, v)]
  | (k, w) :: rest => if k = key then (k, v) :: rest else (k, w) :: setField rest key v

/-- The per-iteration loop item context
`\x7b...bindings, this: item, '@index': index, '@order': index + 1\x7d`. -/
def mergeLoopCtx (bindings : Value) (item : Value) (index : Nat) : Value :=
  vObj (setField (setField (setField (spreadFields bindings)
    thisKey item) atIndexKey (vNum index)) atOrderKey (vNum (index + 1)))

/-- `list.map(...)` inside `#processLoops`: for each item, apply the
raw then the escaped loop interpolation passes to the loop block, then
recursively render the result against the merged per-item context;
results are concatenated (`join('')`) and warnings collected in
order. -/
def eachItemsAux (render : Str → Value → Option (Str × List Str)) (ctx : Value)
    (loopBlock : Str) : List Value → Nat → Option (Str × List Str)
  | [], _ => some ([], [])
  | item :: rest, index =>
    let substituted := loopReplaceEsc item index ctx (loopReplaceRaw item index ctx loopBlock)
    match render substituted (mergeLoopCtx ctx item index) with
    | none => none
    | some (out, w) =>
      match eachItemsAux render ctx loopBlock rest (index + 1) with
      | none => none
      | some (outs, w') => some (out ++ outs, w ++ w')

/-- The `#each` scanning pass: each matched block is replaced by the
per-item renderings when the key resolves to a non-empty array, and
otherwise by the rendered `empty` block (or empty text when there is
none). -/
def eachScanAux (render : Str → Value → Option (Str × List Str)) (ctx : Value) :
    Nat → Str → Option (Str × List Str)
  | 0, s => some (s, [])
  | _ + 1, [] => some ([], [])
  | sf + 1, c :: cs =>
    match matchEachTag (c :: cs) with
    | some (key, content, rest) =>
      let parts := splitOnEmptyTag content
      let loopBlock := parts.headD []
      let emptyBlock := (parts.get? 1).getD []
      let replacement : Option (Str × List Str) :=
        match getNestedValue ctx key with
        | some (vArr (x :: xs)) => eachItemsAux render ctx loopBlock (x :: xs) 0
        | _ => if emptyBlock.isEmpty then some ([], []) else render emptyBlock ctx
      match replacement with
      | none => none
      | some (r, w) =>
        match eachScanAux render ctx sf rest with
        | none => none
        | some (t, w') => some (r ++ t, w ++ w')
    | none =>
      match eachScanAux render ctx sf cs with
      | none => none
      | some (t, w) => some (c :: t, w)

/-- `#processLoops(html, bindings)` as one scanning pass. -/
def loopPass (render : Str → Value → Option (Str × List Str)) (ctx : Value)
    (s : Str) : Option (Str × List Str) :=
  eachScanAux render ctx s.length s

/-! ### The conditional pass -/

/-- The `#if` scanning pass: a truthy key renders the captured body
recursively against the same context, a falsy one yields empty text. -/
def ifScanAux (render : Str → Value → Option (Str × List Str)) (ctx : Value) :
    Nat → Str → Option (Str × List Str)
  | 0, s => some (s, [])
  | _ + 1, [] => some ([], [])
  | sf + 1, c :: cs =>
    match matchIfTag (c :: cs) with
    | some (key, body, rest) =>
      let replacement :=
        if truthyOpt (getNestedValue ctx key) then render body ctx else some ([], [])
      match replacement with
      | none => none
      | some (r, w) =>
        match ifScanAux render ctx sf rest with
        | none => none
        | some (t, w') => some (r ++ t, w ++ w')
    | none =>
      match ifScanAux render ctx sf cs with
      | none => none
      | some (t, w) => some (c :: t, w)

/-- The `#unless` scanning pass: truthiness inverted. -/
def unlessScanAux (render : Str → Value → Option (Str × List Str)) (ctx : Value) :
    Nat → Str → Option (Str × List Str)
  | 0, s => some (s, [])
  | _ + 1, [] => some ([], [])
  | sf + 1, c :: cs =>
    match matchUnlessTag (c :: cs) with
    | some (key, body, rest) =>
      let replacement :=
        if truthyOpt (getNestedValue ctx key) then some (([] : Str), ([] : List Str))
        else render body ctx
      match replacement with
      | none => none
      | some (r, w) =>
        match unlessScanAux render ctx sf rest with
        | none => none
        | some (t, w') => some (r ++ t, w ++ w')
    | none =>
      match unlessScanAux render ctx sf cs with
      | none => none
      | some (t, w) => some (c :: t, w)

/-- `#processConditionals(html, bindings)`: the `#if` pass followed by
the `#unless` pass over its output.  (The surrounding try/catch of the
source is unreachable in the model: no exceptions arise;
nontermination of the recursive rendering is modelled by `none`.) -/
def condPass (render : Str → Value → Option (Str × List Str)) (ctx : Value)
    (s : Str) : Option (Str × List Str) :=
  match ifScanAux render ctx s.length s with
  | none => none
  | some (t, w) =>
    match unlessScanAux render ctx t.length t with
    | none => none
    | some (u, w') => some (u, w ++ w')

/-! ### The partial pass -/

/-- `s.trim()`. -/
def trimJS (s : Str) : Str :=
  (((s.dropWhile isSpaceJS).reverse).dropWhile isSpaceJS).reverse

/-- The `console.warn` message for a missing partial. -/
def warnMissing (name : Str) : Str :=
  "Missing partial \"".toList ++ name ++ "\".".toList

/-- The partial-inclusion scanning pass (`#processPartials`): a
registered name is replaced by the partial's template rendered
recursively against the current bindings; an unregistered name emits a
warning and is replaced by empty text. -/
def partialScanAux (render : Str → Value → Option (Str × List Str))
    (P : List (Str × Str)) (ctx : Value) : Nat → Str → Option (Str × List Str)
  | 0, s => some (s, [])
  | _ + 1, [] => some ([], [])
  | sf + 1, c :: cs =>
    match matchPartialTag (c :: cs) with
    | some (name, rest) =>
      let trimmed := trimJS name
      let replacement : Option (Str × List Str) :=
        match assocLookup P trimmed with
        | none => some ([], [warnMissing trimmed])
        | some tpl => render tpl ctx
      match replacement with
      | none => none
      | some (r, w) =>
        match partialScanAux render P ctx sf rest with
        | none => none
        | some (t, w') => some (r ++ t, w ++ w')
    | none =>
      match partialScanAux render P ctx sf cs with
      | none => none
      | some (t, w) => some (c :: t, w)

/-- `#processPartials(html, bindings)` as one scanning pass. -/
def partialPass (render : Str → Value → Option (Str × List Str))
    (P : List (Str × Str)) (ctx : Value) (s : Str) : Option (Str × List Str) :=
  partialScanAux render P ctx s.length s

/-! ### The renderer -/

/-- Sequencing of passes, threading divergence and accumulating
warnings. -/
def mBind (x : Option (Str × List Str)) (f : Str → Option (Str × List Str)) :
    Option (Str × List Str) :=
  match x with
  | none => none
  | some (s, w) =>
    match f s with
    | none => none
    | some (t, w') => some (t, w ++ w')

/-- `renderTemplateString(html, bindings)` on string input (the
`typeof` guard lives in `renderTemplateString`): the fixed pipeline
partials → conditionals → loops → placeholders, each pass operating on
the output of the previous one.  The fuel bounds the recursion depth
(`none` models nontermination, e.g. a self-including partial). -/
def renderCore (P : List (Str × Str)) : Nat → Str → Value → Option (Str × List Str)
  | 0, _, _ => none
  | rf + 1, html, ctx =>
    mBind (partialPass (renderCore P rf) P ctx html) fun s1 =>
    mBind (condPass (renderCore P rf) ctx s1) fun s2 =>
    mBind (loopPass (renderCore P rf) ctx s2) fun s3 =>
    some (replacePlaceholders ctx s3, [])

/-- The public `renderTemplateString`: a non-string template argument
is logged as an error and produces the empty string. -/
def renderTemplateString (P : List (Str × Str)) (rf : Nat) (arg : Value) (ctx : Value) :
    Option (Str × List Str) :=
  match arg with
  | vStr s => renderCore P rf s ctx
  | _ => some ([], [])

/-! ### The file-content cache and the file-based API -/

/-- A cache entry: content and modification-time fingerprint. -/
structure CacheEntry where
  content : Str
  mtimeMs : Int
deriving Repr

/-- The template cache, keyed by absolute path. -/
abbrev Cache := List (Str × CacheEntry)

/-- The storage boundary: `stat` yields the modification fingerprint of
a path, `readFile` its text; `none` models the operation failing
(rejecting). -/
structure FSModel where
  statMap : List (Str × Int)
  readMap : List (Str × Str)

/-- `Map.delete` on the cache. -/
def cacheDelete (cache : Cache) (p : Str) : Cache :=
  match cache with
  | [] => []
  | (k, e) :: rest => if k = p then rest else (k, e) :: cacheDelete rest p

/-- `Map.set` on the cache: overwrite in place or append. -/
def cacheSet (cache : Cache) (p : Str) (e : CacheEntry) : Cache :=
  match cache with
  | [] => [(p, e)]
  | (k, e') :: rest => if k = p then (k, e) :: rest else (k, e') :: cacheSet rest p e

/-- The result of `#readTemplateFromFile`: the outcome (a rejection or
the text), the cache afterwards, and whether the file's bytes were
read (`readFile` was invoked). -/
structure ReadResult where
  outcome : Except Unit Str
  cache : Cache
  readBytes : Bool
deriving Repr

/-- `#readTemplateFromFile(absolutePath)`: with caching enabled, stat
the path; a failing stat deletes the cache entry and rejects; a cache
entry whose stored fingerprint equals the current one is returned
without reading bytes; otherwise the bytes are read (a failing read
deletes the entry and rejects) and stored with the new fingerprint.
With caching disabled, the bytes are read unconditionally and nothing
is stored. -/
def readTemplateFromFile (enableCache : Bool) (fs : FSModel) (cache : Cache)
    (p : Str) : ReadResult :=
  if enableCache then
    let cached := assocLookup cache p
    match assocLookup fs.statMap p with
    | none => ⟨Except.error (), cacheDelete cache p, false⟩
    | some mtime =>
      match cached with
      | some e =>
        if e.mtimeMs = mtime then ⟨Except.ok e.content, cache, false⟩
        else
          match assocLookup fs.readMap p with
          | none => ⟨Except.error (), cacheDelete cache p, true⟩
          | some content => ⟨Except.ok content, cacheSet cache p ⟨content, mtime⟩, true⟩
      | none =>
        match assocLookup fs.readMap p with
        | none => ⟨Except.error (), cacheDelete cache p, true⟩
        | some content => ⟨Except.ok content, cacheSet cache p ⟨content, mtime⟩, true⟩
  else
    match assocLookup fs.readMap p with
    | none => ⟨Except.error (), cache, true⟩
    | some content => ⟨Except.ok content, cache, true⟩

/-- The result of a file-based render: the outcome (a rejection, or the
rendering of the file's text, which is itself `none` on
nontermination), the cache afterwards, and whether bytes were read. -/
structure FileRenderResult where
  outcome : Except Unit (Option (Str × List Str))
  cache : Cache
  readBytes : Bool

/-- `renderTemplateFile(filePath, bindings)`: resolve the path (path
resolution is an external collaborator, taken as a parameter), read
through the cache, and render the text; a read failure is re-thrown as
an explicit rejection. -/
def renderTemplateFile (P : List (Str × Str)) (rf : Nat) (resolvePath : Str → Str)
    (enableCache : Bool) (fs : FSModel) (cache : Cache)
    (filePath : Str) (ctx : Value) : FileRenderResult :=
  let p := resolvePath filePath
  let r := readTemplateFromFile enableCache fs cache p
  match r.outcome with
  | Except.error _ => ⟨Except.error (), r.cache, r.readBytes⟩
  | Except.ok html => ⟨Except.ok (renderCore P rf html ctx), r.cache, r.readBytes⟩

/-- The suffix `.html`. -/
def htmlSuffix : Str := '.' :: 'h' :: 't' :: 'm' :: 'l' :: []

/-- `s.endsWith(suffix)`. -/
def endsWithStr (suffix s : Str) : Bool :=
  (stripLit suffix.reverse s.reverse).isSome

/-- `render(templateOrFile, bindings)`: a string whose trimmed value
ends with `.html` is dispatched to the file-based path; every other
argument is rendered as an inline template (a non-string produces the
empty string), touching neither the cache nor the storage. -/
def render (P : List (Str × Str)) (rf : Nat) (resolvePath : Str → Str)
    (enableCache : Bool) (fs : FSModel) (cache : Cache)
    (arg : Value) (ctx : Value) : FileRenderResult :=
  match arg with
  | vStr s =>
    if endsWithStr htmlSuffix (trimJS s) then
      renderTemplateFile P rf resolvePath enableCache fs cache s ctx
    else ⟨Except.ok (renderCore P rf s ctx), cache, false⟩
  | _ => ⟨Except.ok (some ([], [])), cache, false⟩

/-! ### Specification-side pipeline (for the refinement claim)

The specification describes `renderString` as the fixed pipeline
PartialExpander → ConditionalEvaluator → LoopEvaluator → Interpolator,
each a single scan-and-replace pass over the entire remaining text.
The following definition follows those words, naming each stage. -/

/-- The PartialExpander stage of the specification. -/
def specPartialExpander (render : Str → Value → Option (Str × List Str))
    (P : List (Str × Str)) (ctx : Value) (text : Str) : Option (Str × List Str) :=
  partialPass render P ctx text

/-- The ConditionalEvaluator stage of the specification. -/
def specConditionalEvaluator (render : Str → Value → Option (Str × List Str))
    (ctx : Value) (text : Str) : Option (Str × List Str) :=
  condPass render ctx text

/-- The LoopEvaluator stage of the specification. -/
def specLoopEvaluator (render : Str → Value → Option (Str × List Str))
    (ctx : Value) (text : Str) : Option (Str × List Str) :=
  loopPass render ctx text

/-- The Interpolator stage of the specification. -/
def specInterpolator (ctx : Value) (text : Str) : Str :=
  replacePlaceholders ctx text

/-- The specification's fixed pipeline: each stage operates on the
output of the previous one, with the recursive renderer supplied to the
stages that re-invoke it on captured bodies. -/
def specPipeline (P : List (Str × Str)) (render : Str → Value → Option (Str × List Str))
    (ctx : Value) (text : Str) : Option (Str × List Str) :=
  mBind (specPartialExpander render P ctx text) fun afterPartials =>
  mBind (specConditionalEvaluator render ctx afterPartials) fun afterConditionals =>
  mBind (specLoopEvaluator render ctx afterConditionals) fun afterLoops =>
  some (specInterpolator ctx afterLoops, [])

/-! ### Brace-freedom predicates -/

/-- Whether the text contains two adjacent opening braces (the prefix
of every directive form). -/
def hasDB : Str → Bool
  | c1 :: c2 :: rest => (c1 == lbrace && c2 == lbrace) || hasDB (c2 :: rest)
  | _ => false

/-- Whether the text contains no opening brace at all. -/
def noLB (s : Str) : Bool := s.all (fun c => !(c == lbrace))

/-! ### Loop claim: expected outputs -/

/-- Whether a resolved value is a non-empty array (the loop branch
condition `Array.isArray(list) && list.length > 0`). -/
def isNonEmptyArrOpt : Option Value → Bool
  | some (vArr (_ :: _)) => true
  | _ => false

/-- Expected output of the loop body `@order`-colon-`this` starting at
0-based index `i`: the 1-based position, a colon, and the escaped
element, per element in order. -/
def eachOrderExpected : Nat → List Value → Str
  | _, [] => []
  | i, x :: xs => escapeHtml (vNum (i + 1)) ++ ':' :: (escapeHtml x ++ eachOrderExpected (i + 1) xs)

/-- Expected output of the loop body `@index`: the 0-based position per
element in order. -/
def eachIndexExpected : Nat → List Value → Str
  | _, [] => []
  | i, _ :: xs => escapeHtml (vNum i) ++ eachIndexExpected (i + 1) xs

/-- Expected output of the loop body `this`: the escaped elements in
order. -/
def eachThisExpected : List Value → Str
  | [] => []
  | x :: xs => escapeHtml x ++ eachThisExpected xs

/-- Expected output of a loop body interpolating one field per item:
the escaped field values in order. -/
def eachFieldExpected : List Str → Str
  | [] => []
  | s :: ss => escapeStr s ++ eachFieldExpected ss

/-! ## Helper lemmas: directive-free text passes through unchanged -/

theorem hasDB_tail {c : Char} {cs : Str} (h : hasDB (c :: cs) = false) : hasDB cs = false := by
  cases cs with
  | nil => rfl
  | cons c2 cs2 =>
    simp only [hasDB, Bool.or_eq_false_iff] at h
    exact h.2

theorem stripLit_braces_none (p : Str) (s : Str) (h : hasDB s = false) :
    stripLit (lbrace :: lbrace :: p) s = none := by
  cases s with
  | nil => rfl
  | cons c cs =>
    cases cs with
    | nil => by_cases hc : c = lbrace <;> simp [stripLit, hc]
    | cons c2 cs2 =>
      by_cases hc : c = lbrace
      · subst hc
        by_cases hc2 : c2 = lbrace
        · subst hc2; simp [hasDB] at h
        · simp [stripLit, hc2]
      · simp [stripLit, hc]

theorem matchIfTag_none {s : Str} (h : hasDB s = false) : matchIfTag s = none := by
  simp [matchIfTag, ifOpenPat, stripLit_braces_none ('#' :: 'i' :: 'f' :: []) s h]

theorem matchUnlessTag_none {s : Str} (h : hasDB s = false) : matchUnlessTag s = none := by
  simp [matchUnlessTag, unlessOpenPat,
    stripLit_braces_none ('#' :: 'u' :: 'n' :: 'l' :: 'e' :: 's' :: 's' :: []) s h]

theorem matchEachTag_none {s : Str} (h : hasDB s = false) : matchEachTag s = none := by
  simp [matchEachTag, eachOpenPat,
    stripLit_braces_none ('#' :: 'e' :: 'a' :: 'c' :: 'h' :: []) s h]

theorem matchPartialTag_none {s : Str} (h : hasDB s = false) : matchPartialTag s = none := by
  simp [matchPartialTag, partialOpenPat, stripLit_braces_none ('>' :: []) s h]

theorem matchInterp_none (openTail closePat : Str) (allowAt : Bool) {s : Str}
    (h : hasDB s = false) :
    matchInterp (lbrace :: lbrace :: openTail) closePat allowAt s = none := by
  simp [matchInterp, stripLit_braces_none openTail s h]

theorem interpScanAux_id (openTail closePat : Str) (allowAt : Bool)
    (cb : Str → Option Str → Str) :
    ∀ (sf : Nat) (s : Str), hasDB s = false →
      interpScanAux (lbrace :: lbrace :: openTail) closePat allowAt cb sf s = s := by
  intro sf
  induction sf with
  | zero => intro s _; rfl
  | succ sf ih =>
    intro s h
    cases s with
    | nil => rfl
    | cons c cs =>
      simp only [interpScanAux, matchInterp_none openTail closePat allowAt h,
        ih cs (hasDB_tail h)]

theorem ifScanAux_id (r : Str → Value → Option (Str × List Str)) (ctx : Value) :
    ∀ (sf : Nat) (s : Str), hasDB s = false → ifScanAux r ctx sf s = some (s, []) := by
  intro sf
  induction sf with
  | zero => intro s _; rfl
  | succ sf ih =>
    intro s h
    cases s with
    | nil => rfl
    | cons c cs =>
      simp only [ifScanAux, matchIfTag_none h, ih cs (hasDB_tail h)]

theorem unlessScanAux_id (r : Str → Value → Option (Str × List Str)) (ctx : Value) :
    ∀ (sf : Nat) (s : Str), hasDB s = false → unlessScanAux r ctx sf s = some (s, []) := by
  intro sf
  induction sf with
  | zero => intro s _; rfl
  | succ sf ih =>
    intro s h
    cases s with
    | nil => rfl
    | cons c cs =>
      simp only [unlessScanAux, matchUnlessTag_none h, ih cs (hasDB_tail h)]

theorem eachScanAux_id (r : Str → Value → Option (Str × List Str)) (ctx : Value) :
    ∀ (sf : Nat) (s : Str), hasDB s = false → eachScanAux r ctx sf s = some (s, []) := by
  intro sf
  induction sf with
  | zero => intro s _; rfl
  | succ sf ih =>
    intro s h
    cases s with
    | nil => rfl
    | cons c cs =>
      simp only [eachScanAux, matchEachTag_none h, ih cs (hasDB_tail h)]

theorem partialScanAux_id (r : Str → Value → Option (Str × List Str))
    (P : List (Str × Str)) (ctx : Value) :
    ∀ (sf : Nat) (s : Str), hasDB s = false → partialScanAux r P ctx sf s = some (s, []) := by
  intro sf
  induction sf with
  | zero => intro s _; rfl
  | succ sf ih =>
    intro s h
    cases s with
    | nil => rfl
    | cons c cs =>
      simp only [partialScanAux, matchPartialTag_none h, ih cs (hasDB_tail h)]

theorem partialPass_id (r : Str → Value → Option (Str × List Str))
    (P : List (Str × Str)) (ctx : Value) {s : Str} (h : hasDB s = false) :
    partialPass r P ctx s = some (s, []) :=
  partialScanAux_id r P ctx s.length s h

theorem condPass_id (r : Str → Value → Option (Str × List Str)) (ctx : Value)
    {s : Str} (h : hasDB s = false) : condPass r ctx s = some (s, []) := by
  simp only [condPass, ifScanAux_id r ctx s.length s h,
    unlessScanAux_id r ctx s.length s h, List.append_nil]

theorem loopPass_id (r : Str → Value → Option (Str × List Str)) (ctx : Value)
    {s : Str} (h : hasDB s = false) : loopPass r ctx s = some (s, []) :=
  eachScanAux_id r ctx s.length s h

theorem replacePlaceholders_id (ctx : Value) {s : Str} (h : hasDB s = false) :
    replacePlaceholders ctx s = s := by
  have h3 := interpScanAux_id (lbrace :: []) closeBraces3 false
    (rawInterpCb (getNestedValue ctx)) s.length s h
  simp only [replacePlaceholders, openBraces3, openBraces2]
  rw [h3]
  exact interpScanAux_id [] closeBraces2 false (escInterpCb (getNestedValue ctx)) s.length s h

theorem renderCore_succ (P : List (Str × Str)) (rf : Nat) (html : Str) (ctx : Value) :
    renderCore P (rf + 1) html ctx =
      mBind (partialPass (renderCore P rf) P ctx html) fun s1 =>
      mBind (condPass (renderCore P rf) ctx s1) fun s2 =>
      mBind (loopPass (renderCore P rf) ctx s2) fun s3 =>
      some (replacePlaceholders ctx s3, []) := rfl

theorem renderCore_id (P : List (Str × Str)) (ctx : Value) (rf : Nat) {s : Str}
    (h : hasDB s = false) : renderCore P (rf + 1) s ctx = some (s, []) := by
  simp only [renderCore, mBind,
    partialPass_id (renderCore P rf) P ctx h,
    condPass_id (renderCore P rf) ctx h,
    loopPass_id (renderCore P rf) ctx h,
    replacePlaceholders_id ctx h, List.append_nil, List.nil_append]

/-! ## Helper lemmas: brace-free strings -/

theorem noLB_hasDB {s : Str} (h : noLB s = true) : hasDB s = false := by
  induction s with
  | nil => rfl
  | cons c cs ih =>
    cases cs with
    | nil => rfl
    | cons c2 cs2 =>
      simp only [noLB, List.all_cons, Bool.and_eq_true, Bool.not_eq_true',
        beq_eq_false_iff_ne] at h
      have htail : noLB (c2 :: cs2) = true := by
        simp only [noLB, List.all_cons, Bool.and_eq_true, Bool.not_eq_true',
          beq_eq_false_iff_ne]
        exact h.2
      simp only [hasDB, Bool.or_eq_false_iff]
      refine ⟨?_, ih htail⟩
      simp [h.1]

theorem noLB_append {a b : Str} : noLB (a ++ b) = (noLB a && noLB b) := by
  simp [noLB, List.all_append]

theorem noLB_replaceCh (c : Char) (rep : Str) {s : Str}
    (hrep : noLB rep = true) (hs : noLB s = true) : noLB (replaceCh c rep s) = true := by
  induction s with
  | nil => rfl
  | cons x xs ih =>
    simp only [noLB, List.all_cons, Bool.and_eq_true] at hs
    have h1 := hs.1
    have h2 := ih hs.2
    simp only [replaceCh, List.flatMap_cons] at *
    rw [noLB_append]
    simp only [h2, Bool.and_true]
    by_cases hx : x = c
    · simp [hx, hrep]
    · simp [hx, noLB, h1]

theorem noLB_escapeStr {s : Str} (hs : noLB s = true) : noLB (escapeStr s) = true := by
  unfold escapeStr
  apply noLB_replaceCh _ _ (by decide)
  apply noLB_replaceCh _ _ (by decide)
  apply noLB_replaceCh _ _ (by decide)
  apply noLB_replaceCh _ _ (by decide)
  apply noLB_replaceCh _ _ (by decide)
  exact hs

theorem noLB_natDigitsAux : ∀ (f n : Nat), noLB (natDigitsAux f n) = true := by
  intro f
  induction f with
  | zero => intro n; rfl
  | succ f ih =>
    intro n
    by_cases hn : n = 0
    · simp [natDigitsAux, hn, noLB]
    · simp only [natDigitsAux, hn, if_false]
      rw [noLB_append]
      simp only [ih, Bool.true_and]
      have hm : n % 10 < 10 := Nat.mod_lt _ (by omega)
      set m := n % 10 with hmdef
      interval_cases m <;> decide

theorem noLB_natToStr (n : Nat) : noLB (natToStr n) = true := by
  by_cases hn : n = 0
  · simp [natToStr, hn]; decide
  · simp only [natToStr, hn, if_false]
    exact noLB_natDigitsAux _ _

theorem noLB_intToStr (i : Int) : noLB (intToStr i) = true := by
  by_cases hi : i < 0
  · simp only [intToStr, hi, if_true]
    have := noLB_natToStr i.natAbs
    simp only [noLB, List.all_cons, Bool.and_eq_true]
    exact ⟨by decide, this⟩
  · simp only [intToStr, hi, if_false]
    exact noLB_natToStr _

/-! ## Helper lemmas: path splitting -/

theorem splitOnDot_ne_nil (s : Str) : splitOnDot s ≠ [] := by
  cases s with
  | nil => simp [splitOnDot]
  | cons c cs =>
    by_cases hc : c = '.'
    · simp [splitOnDot, hc]
    · simp only [splitOnDot, hc, if_false]
      cases h : splitOnDot cs <;> simp

theorem splitOnDot_append (pre post : Str) :
    splitOnDot (pre ++ '.' :: post) = splitOnDot pre ++ splitOnDot post := by
  induction pre with
  | nil => simp [splitOnDot]
  | cons c cs ih =>
    by_cases hc : c = '.'
    · simp [splitOnDot, hc, ih]
    · simp only [List.cons_append, splitOnDot, hc, if_false, List.append_eq]
      obtain ⟨q, qs, hq⟩ := List.exists_cons_of_ne_nil (splitOnDot_ne_nil cs)
      rw [ih, hq]
      simp

theorem foldl_nestedStep_none (l : List Str) : l.foldl nestedStep none = none := by
  induction l with
  | nil => rfl
  | cons q qs ih => simpa [nestedStep] using ih

/-! ## C3 -/

/-- C3: resolution never raises and short-circuits on absence: for
every binding context `c`, as soon as a prefix `pre` of a dotted path
resolves to `null` or absent, every extension `pre.post` of the path
resolves to absent — the fold returns absent without attempting
further indexing. -/
theorem getNestedValue_absent_prefix (c : Value) (pre post : Str)
    (h : getNestedValue c pre = none ∨ getNestedValue c pre = some Value.vNull) :
    getNestedValue c (pre ++ '.' :: post) = none := by
  by_cases hc : c.isNull = true
  · simp [getNestedValue, hc]
  · simp only [Bool.not_eq_true] at hc
    simp only [getNestedValue, hc, Bool.false_eq_true, if_false] at h ⊢
    rw [splitOnDot_append, List.foldl_append]
    obtain ⟨q, qs, hq⟩ := List.exists_cons_of_ne_nil (splitOnDot_ne_nil post)
    rw [hq]
    rcases h with h | h <;> rw [h]
    · rw [List.foldl_cons]
      simpa [nestedStep] using foldl_nestedStep_none qs
    · rw [List.foldl_cons]
      simpa [nestedStep, Value.isNull] using foldl_nestedStep_none qs

/-- C3 witness: `a.b` on a context where `a` is bound to `null`
resolves to absent (and, in particular, no error is raised). -/
theorem getNestedValue_absent_prefix_witness :
    getNestedValue (Value.vObj [(['a'], Value.vNull)]) ('a' :: '.' :: 'b' :: []) = none :=
  getNestedValue_absent_prefix (Value.vObj [(['a'], Value.vNull)]) ['a'] ['b'] (Or.inr rfl)

/-! ## C4 -/

/-- C4: `\x7b\x7b#if x\x7d\x7dA\x7b\x7b/if\x7d\x7d` renders to the body rendered
against the same context when `x` resolves to a truthy value and to
empty text otherwise; the `#unless` form applies the inverted rule;
and a value is falsy exactly when it is `null`, boolean `false`,
numeric zero, `NaN`, or the empty string (absent values are falsy, and
the non-empty string `"0"` is truthy). -/
theorem conditional_blocks_truthiness (P : List (Str × Str)) (rf : Nat) (ctx : Value) :
    (renderCore P (rf + 2) "\x7b\x7b#if x\x7d\x7dA\x7b\x7b/if\x7d\x7d".toList ctx
      = some ((if truthyOpt (getNestedValue ctx ['x']) then ['A'] else []), []))
    ∧ (renderCore P (rf + 2) "\x7b\x7b#unless x\x7d\x7dA\x7b\x7b/unless\x7d\x7d".toList ctx
      = some ((if truthyOpt (getNestedValue ctx ['x']) then [] else ['A']), []))
    ∧ (∀ v : Value, truthy v = false ↔
        (v = Value.vNull ∨ v = Value.vBool false ∨ v = Value.vNum 0 ∨ v = Value.vNaN
          ∨ v = Value.vStr []))
    ∧ truthyOpt none = false
    ∧ truthy (Value.vStr ['0']) = true := by
  refine ⟨?_, ?_, ?_, rfl, rfl⟩
  · cases h : truthyOpt (getNestedValue ctx (['x'] : Str)) <;>
      simp [renderCore, mBind, partialPass, partialScanAux, matchPartialTag, partialOpenPat,
        stripLit, condPass, ifScanAux, unlessScanAux, matchIfTag, matchUnlessTag, ifOpenPat,
        unlessOpenPat, matchBlockRest, findClose, ifClosePat, unlessClosePat, isSpaceJS,
        isKeyChar, isWordChar, closeBraces2, loopPass, eachScanAux, matchEachTag, eachOpenPat,
        replacePlaceholders, interpScanAux, matchInterp, openBraces3, openBraces2,
        closeBraces3, matchDefaultAndClose, escInterpCb, rawInterpCb, lbrace, rbrace, h]
  · cases h : truthyOpt (getNestedValue ctx (['x'] : Str)) <;>
      simp [renderCore, mBind, partialPass, partialScanAux, matchPartialTag, partialOpenPat,
        stripLit, condPass, ifScanAux, unlessScanAux, matchIfTag, matchUnlessTag, ifOpenPat,
        unlessOpenPat, matchBlockRest, findClose, ifClosePat, unlessClosePat, isSpaceJS,
        isKeyChar, isWordChar, closeBraces2, loopPass, eachScanAux, matchEachTag, eachOpenPat,
        replacePlaceholders, interpScanAux, matchInterp, openBraces3, openBraces2,
        closeBraces3, matchDefaultAndClose, escInterpCb, rawInterpCb, lbrace, rbrace, h]
  · intro v
    cases v <;> simp [truthy]

/-! ## C1 -/

/-- C1 counterexample: triple-brace interpolation does not always
produce the stringified value unchanged: the raw substitution is
re-scanned by the subsequent double-brace pass, so a bound value whose
text is itself a double-brace placeholder is interpolated away (here to
empty text, the placeholder being unresolvable). -/
theorem escape_policy_counterexample :
    renderCore [] 1 "\x7b\x7b\x7b x \x7d\x7d\x7d".toList
        (Value.vObj [(['x'], Value.vStr "\x7b\x7b z \x7d\x7d".toList)])
      ≠ some (stringifyValue (Value.vStr "\x7b\x7b z \x7d\x7d".toList), []) := by
  decide

/-- C1 amended: for a path resolving to a present non-`null` value,
double-brace interpolation produces the value stringified and then
HTML-escaped by replacing, in this order, `&`, `<`, `>`, `"`, `'`;
triple-brace interpolation produces the stringified value with no
replacement provided the stringified value contains no double-brace
opener (otherwise it is re-scanned by the escaped-interpolation
pass). -/
theorem escape_policy (P : List (Str × Str)) (rf : Nat) (ctx : Value) (v : Value)
    (hv : getNestedValue ctx (['x'] : Str) = some v) (hn : v.isNull = false) :
    (renderCore P (rf + 1) "\x7b\x7b x \x7d\x7d".toList ctx = some (escapeHtml v, []))
    ∧ (∀ w : Value, escapeHtml w =
        replaceCh '\'' aposEnt (replaceCh '"' quotEnt (replaceCh '>' gtEnt
          (replaceCh '<' ltEnt (replaceCh '&' ampEnt (stringifyValue w))))))
    ∧ (hasDB (stringifyValue v) = false →
        renderCore P (rf + 1) "\x7b\x7b\x7b x \x7d\x7d\x7d".toList ctx
          = some (stringifyValue v, [])) := by
  refine ⟨?_, fun w => rfl, fun hdb => ?_⟩
  · simp [renderCore, mBind, partialPass, partialScanAux, matchPartialTag, partialOpenPat,
      stripLit, condPass, ifScanAux, unlessScanAux, matchIfTag, matchUnlessTag, ifOpenPat,
      unlessOpenPat, matchBlockRest, findClose, ifClosePat, unlessClosePat, isSpaceJS,
      isKeyChar, isWordChar, closeBraces2, loopPass, eachScanAux, matchEachTag, eachOpenPat,
      replacePlaceholders, interpScanAux, matchInterp, openBraces3, openBraces2,
      closeBraces3, matchDefaultAndClose, scanDefaultLit, isQuote, isJsDot,
      escInterpCb, rawInterpCb, lbrace, rbrace, hv, hn]
  · simp only [renderCore, mBind, partialPass, condPass, loopPass]
    simp [partialScanAux, matchPartialTag, partialOpenPat,
      stripLit, ifScanAux, unlessScanAux, matchIfTag, matchUnlessTag, ifOpenPat,
      unlessOpenPat, matchBlockRest, findClose, ifClosePat, unlessClosePat, isSpaceJS,
      isKeyChar, isWordChar, closeBraces2, eachScanAux, matchEachTag, eachOpenPat,
      replacePlaceholders, interpScanAux, matchInterp, openBraces3, openBraces2,
      closeBraces3, matchDefaultAndClose, scanDefaultLit, isQuote, isJsDot,
      escInterpCb, rawInterpCb, lbrace, rbrace, hv, hn]
    exact interpScanAux_id [] closeBraces2 false (escInterpCb (getNestedValue ctx))
      (stringifyValue v).length (stringifyValue v) hdb

/-- C1 witness: the value `<strong>` renders as `&lt;strong&gt;` under
double braces and as `<strong>` unchanged under triple braces. -/
theorem escape_policy_witness :
    renderCore [] 1 "\x7b\x7b x \x7d\x7d".toList
        (Value.vObj [(['x'], Value.vStr "<strong>".toList)])
      = some ("&lt;strong&gt;".toList, [])
    ∧ renderCore [] 1 "\x7b\x7b\x7b x \x7d\x7d\x7d".toList
        (Value.vObj [(['x'], Value.vStr "<strong>".toList)])
      = some ("<strong>".toList, []) := by
  have h := escape_policy [] 0 (Value.vObj [(['x'], Value.vStr "<strong>".toList)])
    (Value.vStr "<strong>".toList) rfl rfl
  exact ⟨h.1, h.2.2 (by decide)⟩

/-! ## C9 -/

/-- C9: rendering a template containing no directives returns it
unchanged (formalized: a template without two adjacent opening braces,
the prefix of every directive form, renders to itself, with no
warnings). -/
theorem render_no_directives (P : List (Str × Str)) (rf : Nat) (ctx : Value) (t : Str)
    (h : hasDB t = false) :
    renderTemplateString P (rf + 1) (Value.vStr t) ctx = some (t, []) :=
  renderCore_id P ctx rf h

/-- C9 witness: a directive-free HTML fragment round-trips. -/
theorem render_no_directives_witness :
    renderTemplateString [] 1 (Value.vStr "<h1>hello & welcome</h1>".toList)
        (Value.vObj [(['x'], Value.vNum 3)])
      = some ("<h1>hello & welcome</h1>".toList, []) :=
  render_no_directives [] 0 (Value.vObj [(['x'], Value.vNum 3)])
    "<h1>hello & welcome</h1>".toList (by decide)

/-! ## C2 -/

/-- C2 counterexample: a raw (triple-brace) default literal is not
substituted verbatim: the substitution is re-scanned by the subsequent
double-brace pass, so a default literal that is itself a double-brace
placeholder is interpolated away instead of appearing in the
output. -/
theorem placeholder_replacement_counterexample :
    renderCore [] 1
        "\x7b\x7b\x7b m || '\x7b\x7b hidden \x7d\x7d' \x7d\x7d\x7d".toList (Value.vObj [])
      ≠ some ("\x7b\x7b hidden \x7d\x7d".toList, []) := by
  decide

/-- C2 amended: a present non-`null` value — including falsy-but-
present values such as `0` or the empty string — wins over the default
(escaped under double braces; raw under triple braces, provided the
stringified value contains no double-brace opener, since the raw
substitution is re-scanned by the escaped pass); a `null`/absent path
with a literal default substitutes the literal (escaped under double
braces, raw under triple braces, with the same proviso — satisfied
here by the literal `N/A`); and a `null`/absent path with no default
yields empty text, not the literal directive text. -/
theorem placeholder_replacement (P : List (Str × Str)) (rf : Nat) (ctx : Value) (v : Value) :
    (getNestedValue ctx (['x'] : Str) = some v → v.isNull = false →
      (renderCore P (rf + 1) "\x7b\x7b x || \"N/A\" \x7d\x7d".toList ctx
        = some (escapeHtml v, []))
      ∧ (hasDB (stringifyValue v) = false →
          renderCore P (rf + 1) "\x7b\x7b\x7b x || \"N/A\" \x7d\x7d\x7d".toList ctx
            = some (stringifyValue v, [])))
    ∧ ((getNestedValue ctx (['x'] : Str) = none
        ∨ getNestedValue ctx (['x'] : Str) = some Value.vNull) →
      (renderCore P (rf + 1) "\x7b\x7b x || \"N/A\" \x7d\x7d".toList ctx
        = some (escapeStr "N/A".toList, []))
      ∧ (renderCore P (rf + 1) "\x7b\x7b\x7b x || \"N/A\" \x7d\x7d\x7d".toList ctx
        = some ("N/A".toList, []))
      ∧ (renderCore P (rf + 1) "\x7b\x7b x \x7d\x7d".toList ctx = some ([], []))
      ∧ (renderCore P (rf + 1) "\x7b\x7b\x7b x \x7d\x7d\x7d".toList ctx = some ([], []))) := by
  constructor
  · intro hv hn
    constructor
    · simp [renderCore, mBind, partialPass, partialScanAux, matchPartialTag, partialOpenPat,
        stripLit, condPass, ifScanAux, unlessScanAux, matchIfTag, matchUnlessTag, ifOpenPat,
        unlessOpenPat, matchBlockRest, findClose, ifClosePat, unlessClosePat, isSpaceJS,
        isKeyChar, isWordChar, closeBraces2, loopPass, eachScanAux, matchEachTag, eachOpenPat,
        replacePlaceholders, interpScanAux, matchInterp, openBraces3, openBraces2,
        closeBraces3, matchDefaultAndClose, scanDefaultLit, isQuote, isJsDot,
        escInterpCb, rawInterpCb, lbrace, rbrace, hv, hn]
    · intro hdb
      simp [renderCore, mBind, partialPass, partialScanAux, matchPartialTag, partialOpenPat,
        stripLit, condPass, ifScanAux, unlessScanAux, matchIfTag, matchUnlessTag, ifOpenPat,
        unlessOpenPat, matchBlockRest, findClose, ifClosePat, unlessClosePat, isSpaceJS,
        isKeyChar, isWordChar, closeBraces2, loopPass, eachScanAux, matchEachTag, eachOpenPat,
        replacePlaceholders, interpScanAux, matchInterp, openBraces3, openBraces2,
        closeBraces3, matchDefaultAndClose, scanDefaultLit, isQuote, isJsDot,
        escInterpCb, rawInterpCb, lbrace, rbrace, hv, hn]
      exact interpScanAux_id [] closeBraces2 false (escInterpCb (getNestedValue ctx))
        (stringifyValue v).length (stringifyValue v) hdb
  · intro habs
    have hcb2 : escInterpCb (getNestedValue ctx) ['x'] (some ['N', '/', 'A'])
        = escapeStr ['N', '/', 'A'] := by
      rcases habs with h | h <;> simp [escInterpCb, h, Value.isNull]
    have hcb3 : rawInterpCb (getNestedValue ctx) ['x'] (some ['N', '/', 'A'])
        = ['N', '/', 'A'] := by
      rcases habs with h | h <;> simp [rawInterpCb, h, Value.isNull]
    have hcb2n : escInterpCb (getNestedValue ctx) ['x'] none = [] := by
      rcases habs with h | h <;> simp [escInterpCb, h, Value.isNull]
    have hcb3n : rawInterpCb (getNestedValue ctx) ['x'] none = [] := by
      rcases habs with h | h <;> simp [rawInterpCb, h, Value.isNull]
    refine ⟨?_, ?_, ?_, ?_⟩ <;>
      simp [renderCore, mBind, partialPass, partialScanAux, matchPartialTag, partialOpenPat,
        stripLit, condPass, ifScanAux, unlessScanAux, matchIfTag, matchUnlessTag, ifOpenPat,
        unlessOpenPat, matchBlockRest, findClose, ifClosePat, unlessClosePat, isSpaceJS,
        isKeyChar, isWordChar, closeBraces2, loopPass, eachScanAux, matchEachTag, eachOpenPat,
        replacePlaceholders, interpScanAux, matchInterp, openBraces3, openBraces2,
        closeBraces3, matchDefaultAndClose, scanDefaultLit, isQuote, isJsDot,
        lbrace, rbrace, hcb2, hcb3, hcb2n, hcb3n]

/-- C2 witness: `\x7b\x7b missing || "N/A" \x7d\x7d` with the path absent
yields `N/A`; with the path bound to `0` (falsy but present) it yields
`0`; and with the path absent and no default the placeholder yields
empty text. -/
theorem placeholder_replacement_witness :
    renderCore [] 1 "\x7b\x7b x || \"N/A\" \x7d\x7d".toList (Value.vObj [])
      = some ("N/A".toList, [])
    ∧ renderCore [] 1 "\x7b\x7b x || \"N/A\" \x7d\x7d".toList
        (Value.vObj [(['x'], Value.vNum 0)])
      = some ("0".toList, [])
    ∧ renderCore [] 1 "\x7b\x7b x \x7d\x7d".toList (Value.vObj []) = some ([], []) := by
  have h1 := (placeholder_replacement [] 0 (Value.vObj []) Value.vNull).2 (Or.inl rfl)
  have h2 := (placeholder_replacement [] 0 (Value.vObj [(['x'], Value.vNum 0)])
    (Value.vNum 0)).1 rfl rfl
  exact ⟨h1.1, h2.1, h1.2.2.1⟩

/-! ## C6 -/

/-- C6: an unregistered partial reference emits a recoverable warning
and is replaced by empty text, with the render completing normally;
a registered partial is replaced by its raw text rendered recursively
against the context active at the point of inclusion — a partial
`greet` bound to `Hi \x7b\x7b name \x7d\x7d` rendered where `name` resolves
to a (brace-free) string renders as `Hi ` followed by that string,
HTML-escaped. -/
theorem partial_inclusion (P : List (Str × Str)) (rf : Nat) (ctx : Value) (n : Str) :
    (assocLookup P (['p', 'p'] : Str) = none →
      renderCore P (rf + 2) "\x7b\x7b> pp\x7d\x7d".toList ctx
        = some ([], [warnMissing ['p', 'p']]))
    ∧ (assocLookup P (['g', 'r', 'e', 'e', 't'] : Str) = some "Hi \x7b\x7b name \x7d\x7d".toList →
      getNestedValue ctx (['n', 'a', 'm', 'e'] : Str) = some (Value.vStr n) →
      noLB n = true →
      renderCore P (rf + 2) "\x7b\x7b> greet\x7d\x7d".toList ctx
        = some ("Hi ".toList ++ escapeStr n, [])) := by
  constructor
  · intro hp
    simp [renderCore, mBind, partialPass, partialScanAux, matchPartialTag, partialOpenPat,
      stripLit, condPass, ifScanAux, unlessScanAux, matchIfTag, matchUnlessTag, ifOpenPat,
      unlessOpenPat, matchBlockRest, findClose, ifClosePat, unlessClosePat, isSpaceJS,
      isKeyChar, isWordChar, isPartialNameChar, trimJS, closeBraces2, loopPass, eachScanAux,
      matchEachTag, eachOpenPat, replacePlaceholders, interpScanAux, matchInterp,
      openBraces3, openBraces2, closeBraces3, matchDefaultAndClose, escInterpCb,
      rawInterpCb, lbrace, rbrace, hp]
  · intro hp hv hnl
    have hesc : noLB (escapeStr n) = true := noLB_escapeStr hnl
    have hall : noLB ("Hi ".toList ++ escapeStr n) = true := by
      rw [noLB_append, hesc]
      decide
    have hdb : hasDB ("Hi ".toList ++ escapeStr n) = false := noLB_hasDB hall
    have hinner : renderCore P (rf + 1) "Hi \x7b\x7b name \x7d\x7d".toList ctx
        = some ("Hi ".toList ++ escapeStr n, []) := by
      simp [renderCore, mBind, partialPass, partialScanAux, matchPartialTag, partialOpenPat,
        stripLit, condPass, ifScanAux, unlessScanAux, matchIfTag, matchUnlessTag, ifOpenPat,
        unlessOpenPat, matchBlockRest, findClose, ifClosePat, unlessClosePat, isSpaceJS,
        isKeyChar, isWordChar, closeBraces2, loopPass, eachScanAux, matchEachTag, eachOpenPat,
        replacePlaceholders, interpScanAux, matchInterp, openBraces3, openBraces2,
        closeBraces3, matchDefaultAndClose, escInterpCb, rawInterpCb, lbrace, rbrace, hv,
        escapeHtml, stringifyValue, Value.isNull]
    have hstep : partialPass (renderCore P (rf + 1)) P ctx "\x7b\x7b> greet\x7d\x7d".toList
        = (match (match assocLookup P (['g', 'r', 'e', 'e', 't'] : Str) with
                  | none => some (([] : Str), [warnMissing ['g', 'r', 'e', 'e', 't']])
                  | some tpl => renderCore P (rf + 1) tpl ctx) with
          | none => none
          | some (r0, w) => some (r0 ++ [], w ++ [])) := rfl
    rw [renderCore_succ, hstep, hp]
    simp only [hinner, mBind, List.append_nil, List.nil_append,
      condPass_id (renderCore P (rf + 1)) ctx hdb,
      loopPass_id (renderCore P (rf + 1)) ctx hdb,
      replacePlaceholders_id ctx hdb]

/-- C6 witness: `\x7b\x7b> greet\x7d\x7d` with `greet` bound to
`Hi \x7b\x7b name \x7d\x7d` and context `name = "Lee"` yields `Hi Lee`,
and an unregistered partial yields empty text plus the warning. -/
theorem partial_inclusion_witness :
    renderCore [(['g', 'r', 'e', 'e', 't'], "Hi \x7b\x7b name \x7d\x7d".toList)] 2
        "\x7b\x7b> greet\x7d\x7d".toList (Value.vObj [("name".toList, Value.vStr "Lee".toList)])
      = some ("Hi Lee".toList, [])
    ∧ renderCore [(['g', 'r', 'e', 'e', 't'], "Hi \x7b\x7b name \x7d\x7d".toList)] 2
        "\x7b\x7b> pp\x7d\x7d".toList (Value.vObj [])
      = some ([], [warnMissing ['p', 'p']]) := by
  have h1 := (partial_inclusion [(['g', 'r', 'e', 'e', 't'], "Hi \x7b\x7b name \x7d\x7d".toList)] 0
    (Value.vObj [("name".toList, Value.vStr "Lee".toList)]) "Lee".toList).2 rfl rfl (by decide)
  have h2 := (partial_inclusion [(['g', 'r', 'e', 'e', 't'], "Hi \x7b\x7b name \x7d\x7d".toList)] 0
    (Value.vObj []) []).1 rfl
  exact ⟨h1, h2⟩

/-! ## Helper lemmas for the loop claim -/

theorem noLB_escapeHtml_vNum (k : Int) : noLB (escapeHtml (Value.vNum k)) = true :=
  noLB_escapeStr (noLB_intToStr k)

theorem eachItems_order (P : List (Str × Str)) (rf : Nat) (ctx : Value) :
    ∀ (xs : List Value) (i : Nat),
      (∀ x ∈ xs, ∃ s, x = Value.vStr s ∧ noLB s = true) →
      eachItemsAux (renderCore P (rf + 1)) ctx
          "\x7b\x7b@order\x7d\x7d:\x7b\x7bthis\x7d\x7d".toList xs i
        = some (eachOrderExpected i xs, []) := by
  intro xs
  induction xs with
  | nil => intro i _; rfl
  | cons x xs ih =>
    intro i hx
    obtain ⟨s, hxs, hnl⟩ := hx x (List.mem_cons_self _ _)
    subst hxs
    have hsub : loopReplaceEsc (Value.vStr s) i ctx
        (loopReplaceRaw (Value.vStr s) i ctx "\x7b\x7b@order\x7d\x7d:\x7b\x7bthis\x7d\x7d".toList)
        = escapeHtml (Value.vNum (i + 1)) ++ ':' :: (escapeStr s ++ []) := rfl
    have hnlsub : noLB (escapeHtml (Value.vNum (i + 1)) ++ ':' :: (escapeStr s ++ [])) = true := by
      rw [noLB_append, noLB_escapeHtml_vNum]
      have := noLB_escapeStr hnl
      simp only [noLB, List.all_cons, List.all_append, List.all_nil] at this ⊢
      simp [this]
      decide
    have hrender := renderCore_id P (mergeLoopCtx ctx (Value.vStr s) i) rf (noLB_hasDB hnlsub)
    simp only [eachItemsAux, hsub, hrender,
      ih (i + 1) (fun y hy => hx y (List.mem_cons_of_mem _ hy)), eachOrderExpected]
    simp [List.append_assoc, escapeHtml, stringifyValue]

theorem eachItems_index (P : List (Str × Str)) (rf : Nat) (ctx : Value) :
    ∀ (xs : List Value) (i : Nat),
      eachItemsAux (renderCore P (rf + 1)) ctx "\x7b\x7b@index\x7d\x7d".toList xs i
        = some (eachIndexExpected i xs, []) := by
  intro xs
  induction xs with
  | nil => intro i; rfl
  | cons x xs ih =>
    intro i
    have hsub : loopReplaceEsc x i ctx
        (loopReplaceRaw x i ctx "\x7b\x7b@index\x7d\x7d".toList)
        = escapeHtml (Value.vNum i) ++ [] := rfl
    have hnlsub : noLB (escapeHtml (Value.vNum i) ++ []) = true := by
      rw [noLB_append, noLB_escapeHtml_vNum]
      rfl
    have hrender := renderCore_id P (mergeLoopCtx ctx x i) rf (noLB_hasDB hnlsub)
    simp only [eachItemsAux, hsub, hrender, ih (i + 1), eachIndexExpected]
    simp

theorem eachItems_this (P : List (Str × Str)) (rf : Nat) (ctx : Value) :
    ∀ (xs : List Value) (i : Nat),
      (∀ x ∈ xs, ∃ s, x = Value.vStr s ∧ noLB s = true) →
      eachItemsAux (renderCore P (rf + 1)) ctx "\x7b\x7bthis\x7d\x7d".toList xs i
        = some (eachThisExpected xs, []) := by
  intro xs
  induction xs with
  | nil => intro i _; rfl
  | cons x xs ih =>
    intro i hx
    obtain ⟨s, hxs, hnl⟩ := hx x (List.mem_cons_self _ _)
    subst hxs
    have hsub : loopReplaceEsc (Value.vStr s) i ctx
        (loopReplaceRaw (Value.vStr s) i ctx "\x7b\x7bthis\x7d\x7d".toList)
        = escapeStr s ++ [] := rfl
    have hnlsub : noLB (escapeStr s ++ []) = true := by
      rw [noLB_append, noLB_escapeStr hnl]
      rfl
    have hrender := renderCore_id P (mergeLoopCtx ctx (Value.vStr s) i) rf (noLB_hasDB hnlsub)
    simp only [eachItemsAux, hsub, hrender,
      ih (i + 1) (fun y hy => hx y (List.mem_cons_of_mem _ hy)), eachThisExpected]
    simp [escapeHtml, stringifyValue]

theorem eachItems_field (P : List (Str × Str)) (rf : Nat) (ctx : Value) :
    ∀ (ss : List Str) (i : Nat),
      (∀ s ∈ ss, noLB s = true) →
      eachItemsAux (renderCore P (rf + 1)) ctx "\x7b\x7bn\x7d\x7d".toList
          (ss.map (fun s => Value.vObj [(['n'], Value.vStr s)])) i
        = some (eachFieldExpected ss, []) := by
  intro ss
  induction ss with
  | nil => intro i _; rfl
  | cons s ss ih =>
    intro i hs
    have hnl := hs s (List.mem_cons_self _ _)
    have hsub : loopReplaceEsc (Value.vObj [(['n'], Value.vStr s)]) i ctx
        (loopReplaceRaw (Value.vObj [(['n'], Value.vStr s)]) i ctx "\x7b\x7bn\x7d\x7d".toList)
        = escapeStr s ++ [] := rfl
    have hnlsub : noLB (escapeStr s ++ []) = true := by
      rw [noLB_append, noLB_escapeStr hnl]
      rfl
    have hrender := renderCore_id P
      (mergeLoopCtx ctx (Value.vObj [(['n'], Value.vStr s)]) i) rf (noLB_hasDB hnlsub)
    simp only [List.map_cons, eachItemsAux, hsub, hrender,
      ih (i + 1) (fun y hy => hs y (List.mem_cons_of_mem _ hy)), eachFieldExpected]
    simp

theorem eachItems_fieldFallback (P : List (Str × Str)) (rf : Nat) (ctx : Value) (m : Str)
    (hv : getNestedValue ctx (['n'] : Str) = some (Value.vStr m)) (hnl : noLB m = true) :
    ∀ (k : Nat) (i : Nat),
      eachItemsAux (renderCore P (rf + 1)) ctx "\x7b\x7bn\x7d\x7d".toList
          (List.replicate k (Value.vObj [])) i
        = some (eachFieldExpected (List.replicate k m), []) := by
  intro k
  induction k with
  | zero => intro i; rfl
  | succ k ih =>
    intro i
    have hsub : loopReplaceEsc (Value.vObj []) i ctx
        (loopReplaceRaw (Value.vObj []) i ctx "\x7b\x7bn\x7d\x7d".toList)
        = escInterpCb (fun key => resolveLoopValue (Value.vObj []) key i ctx) ['n'] none
            ++ [] := rfl
    have hres : resolveLoopValue (Value.vObj []) (['n'] : Str) i ctx
        = getNestedValue ctx ['n'] := rfl
    have hcb : escInterpCb (fun key => resolveLoopValue (Value.vObj []) key i ctx) ['n'] none
        = escapeStr m := by
      simp only [escInterpCb, hres, hv, Value.isNull]
      rfl
    rw [hcb] at hsub
    have hnlsub : noLB (escapeStr m ++ []) = true := by
      rw [noLB_append, noLB_escapeStr hnl]
      rfl
    have hrender := renderCore_id P (mergeLoopCtx ctx (Value.vObj []) i) rf (noLB_hasDB hnlsub)
    simp only [List.replicate_succ, eachItemsAux, hsub, hrender, ih (i + 1), eachFieldExpected]
    simp

theorem noLB_eachOrderExpected (xs : List Value) (i : Nat)
    (hx : ∀ x ∈ xs, ∃ s, x = Value.vStr s ∧ noLB s = true) :
    noLB (eachOrderExpected i xs) = true := by
  induction xs generalizing i with
  | nil => rfl
  | cons x xs ih =>
    obtain ⟨s, hxs, hnl⟩ := hx x (List.mem_cons_self _ _)
    subst hxs
    have h1 := noLB_escapeHtml_vNum ((i : Int) + 1)
    have h2 := noLB_escapeStr hnl
    have h3 := ih (i + 1) (fun y hy => hx y (List.mem_cons_of_mem _ hy))
    simp only [eachOrderExpected, noLB, List.all_append, List.all_cons,
      escapeHtml, stringifyValue] at h1 h2 h3 ⊢
    simp [h1, h2, h3]
    decide

theorem noLB_eachIndexExpected (xs : List Value) (i : Nat) :
    noLB (eachIndexExpected i xs) = true := by
  induction xs generalizing i with
  | nil => rfl
  | cons x xs ih =>
    have h1 := noLB_escapeHtml_vNum (i : Int)
    have h3 := ih (i + 1)
    simp only [eachIndexExpected, noLB, List.all_append] at h1 h3 ⊢
    simp [h1, h3]

theorem noLB_eachThisExpected (xs : List Value)
    (hx : ∀ x ∈ xs, ∃ s, x = Value.vStr s ∧ noLB s = true) :
    noLB (eachThisExpected xs) = true := by
  induction xs with
  | nil => rfl
  | cons x xs ih =>
    obtain ⟨s, hxs, hnl⟩ := hx x (List.mem_cons_self _ _)
    subst hxs
    have h2 := noLB_escapeStr hnl
    have h3 := ih (fun y hy => hx y (List.mem_cons_of_mem _ hy))
    simp only [eachThisExpected, noLB, List.all_append, escapeHtml, stringifyValue] at h2 h3 ⊢
    simp [h2, h3]

theorem noLB_eachFieldExpected (ss : List Str)
    (hs : ∀ s ∈ ss, noLB s = true) :
    noLB (eachFieldExpected ss) = true := by
  induction ss with
  | nil => rfl
  | cons s ss ih =>
    have h2 := noLB_escapeStr (hs s (List.mem_cons_self _ _))
    have h3 := ih (fun y hy => hs y (List.mem_cons_of_mem _ hy))
    simp only [eachFieldExpected, noLB, List.all_append] at h2 h3 ⊢
    simp [h2, h3]

/-! ## C5 -/

/-- C5: a `#each` block over a non-empty array concatenates, in
sequence order, the loop block rendered once per element with `this`
bound to the element, `@index` to its 0-based and `@order` to its
1-based position, and other names resolved against the item first with
fallback to the outer context; over an absent, non-array, or empty
value it renders the `empty` block against the outer context (or empty
text without one).  (Item strings are assumed brace-free so that their
substitution introduces no further directives.) -/
theorem each_blocks (P : List (Str × Str)) (rf : Nat) (ctx : Value) (xs : List Value)
    (m : Str) :
    (getNestedValue ctx (['i', 't', 'e', 'm', 's'] : Str) = some (Value.vArr xs) →
      xs ≠ [] → (∀ x ∈ xs, ∃ s, x = Value.vStr s ∧ noLB s = true) →
      renderCore P (rf + 2)
          "\x7b\x7b#each items\x7d\x7d\x7b\x7b@order\x7d\x7d:\x7b\x7bthis\x7d\x7d\x7b\x7b/each\x7d\x7d".toList ctx
        = some (eachOrderExpected 0 xs, []))
    ∧ (getNestedValue ctx (['i', 't', 'e', 'm', 's'] : Str) = some (Value.vArr xs) →
      xs ≠ [] →
      renderCore P (rf + 2)
          "\x7b\x7b#each items\x7d\x7d\x7b\x7b@index\x7d\x7d\x7b\x7b/each\x7d\x7d".toList ctx
        = some (eachIndexExpected 0 xs, []))
    ∧ (getNestedValue ctx (['i', 't', 'e', 'm', 's'] : Str) = some (Value.vArr xs) →
      xs ≠ [] → (∀ x ∈ xs, ∃ s, x = Value.vStr s ∧ noLB s = true) →
      renderCore P (rf + 2)
          "\x7b\x7b#each items\x7d\x7d\x7b\x7bthis\x7d\x7d\x7b\x7bempty\x7d\x7dnone\x7b\x7b/each\x7d\x7d".toList ctx
        = some (eachThisExpected xs, []))
    ∧ (isNonEmptyArrOpt (getNestedValue ctx (['i', 't', 'e', 'm', 's'] : Str)) = false →
      renderCore P (rf + 2)
          "\x7b\x7b#each items\x7d\x7d\x7b\x7bthis\x7d\x7d\x7b\x7bempty\x7d\x7dnone\x7b\x7b/each\x7d\x7d".toList ctx
        = some ("none".toList, []))
    ∧ (isNonEmptyArrOpt (getNestedValue ctx (['i', 't', 'e', 'm', 's'] : Str)) = false →
      renderCore P (rf + 2)
          "\x7b\x7b#each items\x7d\x7d\x7b\x7bthis\x7d\x7d\x7b\x7b/each\x7d\x7d".toList ctx
        = some ([], []))
    ∧ (∀ ss : List Str,
      getNestedValue ctx (['i', 't', 'e', 'm', 's'] : Str)
          = some (Value.vArr (ss.map (fun s => Value.vObj [(['n'], Value.vStr s)]))) →
      ss ≠ [] → (∀ s ∈ ss, noLB s = true) →
      renderCore P (rf + 2)
          "\x7b\x7b#each items\x7d\x7d\x7b\x7bn\x7d\x7d\x7b\x7b/each\x7d\x7d".toList ctx
        = some (eachFieldExpected ss, []))
    ∧ (∀ k : Nat,
      getNestedValue ctx (['i', 't', 'e', 'm', 's'] : Str)
          = some (Value.vArr (List.replicate k (Value.vObj []))) →
      k ≠ 0 → getNestedValue ctx (['n'] : Str) = some (Value.vStr m) → noLB m = true →
      renderCore P (rf + 2)
          "\x7b\x7b#each items\x7d\x7d\x7b\x7bn\x7d\x7d\x7b\x7b/each\x7d\x7d".toList ctx
        = some (eachFieldExpected (List.replicate k m), [])) := by
  refine ⟨?_, ?_, ?_, ?_, ?_, ?_, ?_⟩
  · intro hv hne hstr
    obtain ⟨x, xs', rfl⟩ := List.exists_cons_of_ne_nil hne
    have h1 : partialPass (renderCore P (rf + 1)) P ctx
        "\x7b\x7b#each items\x7d\x7d\x7b\x7b@order\x7d\x7d:\x7b\x7bthis\x7d\x7d\x7b\x7b/each\x7d\x7d".toList
        = some ("\x7b\x7b#each items\x7d\x7d\x7b\x7b@order\x7d\x7d:\x7b\x7bthis\x7d\x7d\x7b\x7b/each\x7d\x7d".toList, []) := rfl
    have h2 : condPass (renderCore P (rf + 1)) ctx
        "\x7b\x7b#each items\x7d\x7d\x7b\x7b@order\x7d\x7d:\x7b\x7bthis\x7d\x7d\x7b\x7b/each\x7d\x7d".toList
        = some ("\x7b\x7b#each items\x7d\x7d\x7b\x7b@order\x7d\x7d:\x7b\x7bthis\x7d\x7d\x7b\x7b/each\x7d\x7d".toList, []) := rfl
    have h3 : loopPass (renderCore P (rf + 1)) ctx
        "\x7b\x7b#each items\x7d\x7d\x7b\x7b@order\x7d\x7d:\x7b\x7bthis\x7d\x7d\x7b\x7b/each\x7d\x7d".toList
        = (match (match getNestedValue ctx (['i', 't', 'e', 'm', 's'] : Str) with
                  | some (Value.vArr (y :: ys)) =>
                      eachItemsAux (renderCore P (rf + 1)) ctx
                        "\x7b\x7b@order\x7d\x7d:\x7b\x7bthis\x7d\x7d".toList (y :: ys) 0
                  | _ => some ([], [])) with
           | none => none
           | some (r0, w) => some (r0 ++ ([] : Str), w ++ [])) := rfl
    rw [renderCore_succ]
    simp only [mBind, h1, h2, h3, hv]
    rw [eachItems_order P rf ctx (x :: xs') 0 hstr]
    have hid := replacePlaceholders_id ctx
      (noLB_hasDB (noLB_eachOrderExpected (x :: xs') 0 hstr))
    simp [hid]
  · intro hv hne
    obtain ⟨x, xs', rfl⟩ := List.exists_cons_of_ne_nil hne
    have h1 : partialPass (renderCore P (rf + 1)) P ctx
        "\x7b\x7b#each items\x7d\x7d\x7b\x7b@index\x7d\x7d\x7b\x7b/each\x7d\x7d".toList
        = some ("\x7b\x7b#each items\x7d\x7d\x7b\x7b@index\x7d\x7d\x7b\x7b/each\x7d\x7d".toList, []) := rfl
    have h2 : condPass (renderCore P (rf + 1)) ctx
        "\x7b\x7b#each items\x7d\x7d\x7b\x7b@index\x7d\x7d\x7b\x7b/each\x7d\x7d".toList
        = some ("\x7b\x7b#each items\x7d\x7d\x7b\x7b@index\x7d\x7d\x7b\x7b/each\x7d\x7d".toList, []) := rfl
    have h3 : loopPass (renderCore P (rf + 1)) ctx
        "\x7b\x7b#each items\x7d\x7d\x7b\x7b@index\x7d\x7d\x7b\x7b/each\x7d\x7d".toList
        = (match (match getNestedValue ctx (['i', 't', 'e', 'm', 's'] : Str) with
                  | some (Value.vArr (y :: ys)) =>
                      eachItemsAux (renderCore P (rf + 1)) ctx
                        "\x7b\x7b@index\x7d\x7d".toList (y :: ys) 0
                  | _ => some ([], [])) with
           | none => none
           | some (r0, w) => some (r0 ++ ([] : Str), w ++ [])) := rfl
    rw [renderCore_succ]
    simp only [mBind, h1, h2, h3, hv]
    rw [eachItems_index P rf ctx (x :: xs') 0]
    have hid := replacePlaceholders_id ctx
      (noLB_hasDB (noLB_eachIndexExpected (x :: xs') 0))
    simp [hid]
  · intro hv hne hstr
    obtain ⟨x, xs', rfl⟩ := List.exists_cons_of_ne_nil hne
    have h1 : partialPass (renderCore P (rf + 1)) P ctx
        "\x7b\x7b#each items\x7d\x7d\x7b\x7bthis\x7d\x7d\x7b\x7bempty\x7d\x7dnone\x7b\x7b/each\x7d\x7d".toList
        = some ("\x7b\x7b#each items\x7d\x7d\x7b\x7bthis\x7d\x7d\x7b\x7bempty\x7d\x7dnone\x7b\x7b/each\x7d\x7d".toList, []) := rfl
    have h2 : condPass (renderCore P (rf + 1)) ctx
        "\x7b\x7b#each items\x7d\x7d\x7b\x7bthis\x7d\x7d\x7b\x7bempty\x7d\x7dnone\x7b\x7b/each\x7d\x7d".toList
        = some ("\x7b\x7b#each items\x7d\x7d\x7b\x7bthis\x7d\x7d\x7b\x7bempty\x7d\x7dnone\x7b\x7b/each\x7d\x7d".toList, []) := rfl
    have h3 : loopPass (renderCore P (rf + 1)) ctx
        "\x7b\x7b#each items\x7d\x7d\x7b\x7bthis\x7d\x7d\x7b\x7bempty\x7d\x7dnone\x7b\x7b/each\x7d\x7d".toList
        = (match (match getNestedValue ctx (['i', 't', 'e', 'm', 's'] : Str) with
                  | some (Value.vArr (y :: ys)) =>
                      eachItemsAux (renderCore P (rf + 1)) ctx
                        "\x7b\x7bthis\x7d\x7d".toList (y :: ys) 0
                  | _ => some ("none".toList, [])) with
           | none => none
           | some (r0, w) => some (r0 ++ ([] : Str), w ++ [])) := rfl
    rw [renderCore_succ]
    simp only [mBind, h1, h2, h3, hv]
    rw [eachItems_this P rf ctx (x :: xs') 0 hstr]
    have hid := replacePlaceholders_id ctx
      (noLB_hasDB (noLB_eachThisExpected (x :: xs') hstr))
    simp [hid]
  · intro hfalse
    have h1 : partialPass (renderCore P (rf + 1)) P ctx
        "\x7b\x7b#each items\x7d\x7d\x7b\x7bthis\x7d\x7d\x7b\x7bempty\x7d\x7dnone\x7b\x7b/each\x7d\x7d".toList
        = some ("\x7b\x7b#each items\x7d\x7d\x7b\x7bthis\x7d\x7d\x7b\x7bempty\x7d\x7dnone\x7b\x7b/each\x7d\x7d".toList, []) := rfl
    have h2 : condPass (renderCore P (rf + 1)) ctx
        "\x7b\x7b#each items\x7d\x7d\x7b\x7bthis\x7d\x7d\x7b\x7bempty\x7d\x7dnone\x7b\x7b/each\x7d\x7d".toList
        = some ("\x7b\x7b#each items\x7d\x7d\x7b\x7bthis\x7d\x7d\x7b\x7bempty\x7d\x7dnone\x7b\x7b/each\x7d\x7d".toList, []) := rfl
    have h3 : loopPass (renderCore P (rf + 1)) ctx
        "\x7b\x7b#each items\x7d\x7d\x7b\x7bthis\x7d\x7d\x7b\x7bempty\x7d\x7dnone\x7b\x7b/each\x7d\x7d".toList
        = (match (match getNestedValue ctx (['i', 't', 'e', 'm', 's'] : Str) with
                  | some (Value.vArr (y :: ys)) =>
                      eachItemsAux (renderCore P (rf + 1)) ctx
                        "\x7b\x7bthis\x7d\x7d".toList (y :: ys) 0
                  | _ => some ("none".toList, [])) with
           | none => none
           | some (r0, w) => some (r0 ++ ([] : Str), w ++ [])) := rfl
    rw [renderCore_succ]
    simp only [mBind, h1, h2, h3]
    rcases hres : getNestedValue ctx (['i', 't', 'e', 'm', 's'] : Str) with _ | v
    · simp
      try rfl
    · rw [hres] at hfalse
      cases v with
      | vArr l =>
        cases l with
        | nil => simp; try rfl
        | cons y ys => simp [isNonEmptyArrOpt] at hfalse
      | vStr s => simp; try rfl
      | vNum n => simp; try rfl
      | vNaN => simp; try rfl
      | vBool b => simp; try rfl
      | vNull => simp; try rfl
      | vObj fs => simp; try rfl
  · intro hfalse
    have h1 : partialPass (renderCore P (rf + 1)) P ctx
        "\x7b\x7b#each items\x7d\x7d\x7b\x7bthis\x7d\x7d\x7b\x7b/each\x7d\x7d".toList
        = some ("\x7b\x7b#each items\x7d\x7d\x7b\x7bthis\x7d\x7d\x7b\x7b/each\x7d\x7d".toList, []) := rfl
    have h2 : condPass (renderCore P (rf + 1)) ctx
        "\x7b\x7b#each items\x7d\x7d\x7b\x7bthis\x7d\x7d\x7b\x7b/each\x7d\x7d".toList
        = some ("\x7b\x7b#each items\x7d\x7d\x7b\x7bthis\x7d\x7d\x7b\x7b/each\x7d\x7d".toList, []) := rfl
    have h3 : loopPass (renderCore P (rf + 1)) ctx
        "\x7b\x7b#each items\x7d\x7d\x7b\x7bthis\x7d\x7d\x7b\x7b/each\x7d\x7d".toList
        = (match (match getNestedValue ctx (['i', 't', 'e', 'm', 's'] : Str) with
                  | some (Value.vArr (y :: ys)) =>
                      eachItemsAux (renderCore P (rf + 1)) ctx
                        "\x7b\x7bthis\x7d\x7d".toList (y :: ys) 0
                  | _ => some ([], [])) with
           | none => none
           | some (r0, w) => some (r0 ++ ([] : Str), w ++ [])) := rfl
    rw [renderCore_succ]
    simp only [mBind, h1, h2, h3]
    rcases hres : getNestedValue ctx (['i', 't', 'e', 'm', 's'] : Str) with _ | v
    · simp
      try rfl
    · rw [hres] at hfalse
      cases v with
      | vArr l =>
        cases l with
        | nil => simp; try rfl
        | cons y ys => simp [isNonEmptyArrOpt] at hfalse
      | vStr s => simp; try rfl
      | vNum n => simp; try rfl
      | vNaN => simp; try rfl
      | vBool b => simp; try rfl
      | vNull => simp; try rfl
      | vObj fs => simp; try rfl
  · intro ss hv hne hsnl
    obtain ⟨s, ss', rfl⟩ := List.exists_cons_of_ne_nil hne
    have h1 : partialPass (renderCore P (rf + 1)) P ctx
        "\x7b\x7b#each items\x7d\x7d\x7b\x7bn\x7d\x7d\x7b\x7b/each\x7d\x7d".toList
        = some ("\x7b\x7b#each items\x7d\x7d\x7b\x7bn\x7d\x7d\x7b\x7b/each\x7d\x7d".toList, []) := rfl
    have h2 : condPass (renderCore P (rf + 1)) ctx
        "\x7b\x7b#each items\x7d\x7d\x7b\x7bn\x7d\x7d\x7b\x7b/each\x7d\x7d".toList
        = some ("\x7b\x7b#each items\x7d\x7d\x7b\x7bn\x7d\x7d\x7b\x7b/each\x7d\x7d".toList, []) := rfl
    have h3 : loopPass (renderCore P (rf + 1)) ctx
        "\x7b\x7b#each items\x7d\x7d\x7b\x7bn\x7d\x7d\x7b\x7b/each\x7d\x7d".toList
        = (match (match getNestedValue ctx (['i', 't', 'e', 'm', 's'] : Str) with
                  | some (Value.vArr (y :: ys)) =>
                      eachItemsAux (renderCore P (rf + 1)) ctx
                        "\x7b\x7bn\x7d\x7d".toList (y :: ys) 0
                  | _ => some ([], [])) with
           | none => none
           | some (r0, w) => some (r0 ++ ([] : Str), w ++ [])) := rfl
    have hlem := eachItems_field P rf ctx (s :: ss') 0 hsnl
    simp only [List.map_cons] at hlem hv
    rw [renderCore_succ]
    simp only [mBind, h1, h2, h3, hv]
    rw [hlem]
    have hid := replacePlaceholders_id ctx
      (noLB_hasDB (noLB_eachFieldExpected (s :: ss') hsnl))
    simp [hid]
  · intro k hv hk hn hnl
    obtain ⟨k', rfl⟩ := Nat.exists_eq_succ_of_ne_zero hk
    have h1 : partialPass (renderCore P (rf + 1)) P ctx
        "\x7b\x7b#each items\x7d\x7d\x7b\x7bn\x7d\x7d\x7b\x7b/each\x7d\x7d".toList
        = some ("\x7b\x7b#each items\x7d\x7d\x7b\x7bn\x7d\x7d\x7b\x7b/each\x7d\x7d".toList, []) := rfl
    have h2 : condPass (renderCore P (rf + 1)) ctx
        "\x7b\x7b#each items\x7d\x7d\x7b\x7bn\x7d\x7d\x7b\x7b/each\x7d\x7d".toList
        = some ("\x7b\x7b#each items\x7d\x7d\x7b\x7bn\x7d\x7d\x7b\x7b/each\x7d\x7d".toList, []) := rfl
    have h3 : loopPass (renderCore P (rf + 1)) ctx
        "\x7b\x7b#each items\x7d\x7d\x7b\x7bn\x7d\x7d\x7b\x7b/each\x7d\x7d".toList
        = (match (match getNestedValue ctx (['i', 't', 'e', 'm', 's'] : Str) with
                  | some (Value.vArr (y :: ys)) =>
                      eachItemsAux (renderCore P (rf + 1)) ctx
                        "\x7b\x7bn\x7d\x7d".toList (y :: ys) 0
                  | _ => some ([], [])) with
           | none => none
           | some (r0, w) => some (r0 ++ ([] : Str), w ++ [])) := rfl
    have hlem := eachItems_fieldFallback P rf ctx m hn hnl (k' + 1) 0
    simp only [List.replicate_succ] at hlem hv
    rw [renderCore_succ]
    simp only [mBind, h1, h2, h3, hv]
    rw [hlem]
    have hmall : ∀ s ∈ List.replicate (k' + 1) m, noLB s = true := by
      intro s hs
      rw [List.eq_of_mem_replicate hs]
      exact hnl
    have hid := replacePlaceholders_id ctx
      (noLB_hasDB (noLB_eachFieldExpected (List.replicate (k' + 1) m) hmall))
    simp only [List.replicate_succ] at hid
    simp [hid, List.replicate_succ]

/-- C5 witness: `\x7b\x7b#each items\x7d\x7d\x7b\x7bthis\x7d\x7d\x7b\x7bempty\x7d\x7dnone\x7b\x7b/each\x7d\x7d`
yields `ab` for `items = ["a","b"]` and `none` for `items = []`, and
`\x7b\x7b#each items\x7d\x7d\x7b\x7b@order\x7d\x7d:\x7b\x7bthis\x7d\x7d\x7b\x7b/each\x7d\x7d` with
`["x","y"]` yields `1:x2:y`. -/
theorem each_blocks_witness :
    renderCore [] 2
        "\x7b\x7b#each items\x7d\x7d\x7b\x7bthis\x7d\x7d\x7b\x7bempty\x7d\x7dnone\x7b\x7b/each\x7d\x7d".toList
        (Value.vObj [(['i', 't', 'e', 'm', 's'],
          Value.vArr [Value.vStr ['a'], Value.vStr ['b']])])
      = some ("ab".toList, [])
    ∧ renderCore [] 2
        "\x7b\x7b#each items\x7d\x7d\x7b\x7bthis\x7d\x7d\x7b\x7bempty\x7d\x7dnone\x7b\x7b/each\x7d\x7d".toList
        (Value.vObj [(['i', 't', 'e', 'm', 's'], Value.vArr [])])
      = some ("none".toList, [])
    ∧ renderCore [] 2
        "\x7b\x7b#each items\x7d\x7d\x7b\x7b@order\x7d\x7d:\x7b\x7bthis\x7d\x7d\x7b\x7b/each\x7d\x7d".toList
        (Value.vObj [(['i', 't', 'e', 'm', 's'],
          Value.vArr [Value.vStr ['x'], Value.vStr ['y']])])
      = some ("1:x2:y".toList, []) := by
  have hstr1 : ∀ x ∈ [Value.vStr ['a'], Value.vStr ['b']],
      ∃ s, x = Value.vStr s ∧ noLB s = true := by
    intro x hx
    simp only [List.mem_cons, List.not_mem_nil, or_false] at hx
    rcases hx with rfl | rfl
    · exact ⟨['a'], rfl, rfl⟩
    · exact ⟨['b'], rfl, rfl⟩
  have hstr2 : ∀ x ∈ [Value.vStr ['x'], Value.vStr ['y']],
      ∃ s, x = Value.vStr s ∧ noLB s = true := by
    intro x hx
    simp only [List.mem_cons, List.not_mem_nil, or_false] at hx
    rcases hx with rfl | rfl
    · exact ⟨['x'], rfl, rfl⟩
    · exact ⟨['y'], rfl, rfl⟩
  have h1 := (each_blocks [] 0
    (Value.vObj [(['i', 't', 'e', 'm', 's'], Value.vArr [Value.vStr ['a'], Value.vStr ['b']])])
    [Value.vStr ['a'], Value.vStr ['b']] []).2.2.1 rfl (by simp) hstr1
  have h2 := (each_blocks [] 0
    (Value.vObj [(['i', 't', 'e', 'm', 's'], Value.vArr [])])
    [] []).2.2.2.1 rfl
  have h3 := (each_blocks [] 0
    (Value.vObj [(['i', 't', 'e', 'm', 's'], Value.vArr [Value.vStr ['x'], Value.vStr ['y']])])
    [Value.vStr ['x'], Value.vStr ['y']] []).1 rfl (by simp) hstr2
  exact ⟨h1, h2, h3⟩

/-! ## C7 -/

/-- C7: with caching enabled, a cache hit whose stored fingerprint
equals the file's current fingerprint returns the stored content
without reading bytes; a miss or a stale entry reads the bytes, stores
them with the new fingerprint, and returns them; a failing stat or
read removes the cache entry and surfaces the failure, which the
file-based render rethrows as a rejection rather than swallowing. -/
theorem template_cache (fs : FSModel) (cache : Cache) (p : Str) (e : CacheEntry)
    (mtime : Int) (content : Str) :
    (assocLookup cache p = some e → assocLookup fs.statMap p = some e.mtimeMs →
      readTemplateFromFile true fs cache p = ⟨Except.ok e.content, cache, false⟩)
    ∧ (assocLookup cache p = none → assocLookup fs.statMap p = some mtime →
      assocLookup fs.readMap p = some content →
      readTemplateFromFile true fs cache p
        = ⟨Except.ok content, cacheSet cache p ⟨content, mtime⟩, true⟩)
    ∧ (assocLookup cache p = some e → e.mtimeMs ≠ mtime →
      assocLookup fs.statMap p = some mtime → assocLookup fs.readMap p = some content →
      readTemplateFromFile true fs cache p
        = ⟨Except.ok content, cacheSet cache p ⟨content, mtime⟩, true⟩)
    ∧ (assocLookup fs.statMap p = none →
      readTemplateFromFile true fs cache p = ⟨Except.error (), cacheDelete cache p, false⟩)
    ∧ (assocLookup cache p = none → assocLookup fs.statMap p = some mtime →
      assocLookup fs.readMap p = none →
      readTemplateFromFile true fs cache p = ⟨Except.error (), cacheDelete cache p, true⟩)
    ∧ (∀ (P : List (Str × Str)) (rf : Nat) (resolvePath : Str → Str) (enableCache : Bool)
        (ctx : Value) (fp : Str),
      (readTemplateFromFile enableCache fs cache (resolvePath fp)).outcome = Except.error () →
      (renderTemplateFile P rf resolvePath enableCache fs cache fp ctx).outcome
        = Except.error ()) := by
  refine ⟨?_, ?_, ?_, ?_, ?_, ?_⟩
  · intro hc hs
    simp [readTemplateFromFile, hc, hs]
  · intro hc hs hr
    simp [readTemplateFromFile, hc, hs, hr]
  · intro hc hne hs hr
    simp [readTemplateFromFile, hc, hs, hr, hne]
  · intro hs
    simp [readTemplateFromFile, hs]
  · intro hc hs hr
    simp [readTemplateFromFile, hc, hs, hr]
  · intro P rf resolvePath enableCache ctx fp h
    simp only [renderTemplateFile]
    rw [h]

/-- C7 witness: a cache entry with fingerprint equal to the live one is
served from the cache with no byte read; after the fingerprint
changes, the bytes are re-read and the entry updated; a vanished file
rejects and evicts; and the file-based render surfaces the
rejection. -/
theorem template_cache_witness :
    readTemplateFromFile true ⟨[(['p'], 5)], [(['p'], "new".toList)]⟩
        [(['p'], ⟨"old".toList, 5⟩)] ['p']
      = ⟨Except.ok "old".toList, [(['p'], ⟨"old".toList, 5⟩)], false⟩
    ∧ readTemplateFromFile true ⟨[(['p'], 7)], [(['p'], "new".toList)]⟩
        [(['p'], ⟨"old".toList, 5⟩)] ['p']
      = ⟨Except.ok "new".toList, [(['p'], ⟨"new".toList, 7⟩)], true⟩
    ∧ readTemplateFromFile true ⟨[], []⟩ [(['p'], ⟨"old".toList, 5⟩)] ['p']
      = ⟨Except.error (), [], false⟩
    ∧ (renderTemplateFile [] 1 (fun s => s) true ⟨[], []⟩
        [(['p'], ⟨"old".toList, 5⟩)] ['p'] (Value.vObj [])).outcome
      = Except.error () := by
  have h := template_cache ⟨[(['p'], 5)], [(['p'], "new".toList)]⟩
    [(['p'], ⟨"old".toList, 5⟩)] ['p'] ⟨"old".toList, 5⟩ 5 "new".toList
  have h2 := template_cache ⟨[(['p'], 7)], [(['p'], "new".toList)]⟩
    [(['p'], ⟨"old".toList, 5⟩)] ['p'] ⟨"old".toList, 5⟩ 7 "new".toList
  have h3 := template_cache ⟨[], []⟩ [(['p'], ⟨"old".toList, 5⟩)] ['p']
    ⟨"old".toList, 5⟩ 5 "new".toList
  refine ⟨h.1 rfl rfl, h2.2.2.1 rfl (by decide) rfl rfl, h3.2.2.2.1 rfl, ?_⟩
  exact h3.2.2.2.2.2 [] 1 (fun s => s) true (Value.vObj []) ['p'] rfl

/-! ## C8 -/

/-- C8: `renderTemplateString` equals the specification's fixed
pipeline PartialExpander → ConditionalEvaluator → LoopEvaluator →
Interpolator, each a single scan-and-replace pass over the entire
remaining text, with nested bodies handled by the recursive renderer
supplied to the stages; and a single outer invocation fully expands a
nested conditional-within-loop template. -/
theorem pipeline_refinement (P : List (Str × Str)) (rf : Nat) (text : Str) (ctx : Value) :
    (renderCore P (rf + 1) text ctx = specPipeline P (renderCore P rf) ctx text)
    ∧ renderCore [] 3
        "\x7b\x7b#if a\x7d\x7d\x7b\x7b#each items\x7d\x7d\x7b\x7bthis\x7d\x7d\x7b\x7b/each\x7d\x7d\x7b\x7b/if\x7d\x7d".toList
        (Value.vObj [(['a'], Value.vBool true),
          (['i', 't', 'e', 'm', 's'], Value.vArr [Value.vStr ['u'], Value.vStr ['v']])])
      = some ("uv".toList, []) :=
  ⟨rfl, by decide⟩

/-! ## C10 -/

/-- C10: `render` dispatches to the file-based path exactly when its
argument is a string whose trimmed value ends with `.html`; any other
string is rendered inline without touching the cache or reading bytes;
a non-string argument yields the empty string, likewise touching
neither cache nor storage. -/
theorem render_dispatch (P : List (Str × Str)) (rf : Nat) (resolvePath : Str → Str)
    (enableCache : Bool) (fs : FSModel) (cache : Cache) (ctx : Value) :
    (∀ s : Str, endsWithStr htmlSuffix (trimJS s) = true →
      render P rf resolvePath enableCache fs cache (Value.vStr s) ctx
        = renderTemplateFile P rf resolvePath enableCache fs cache s ctx)
    ∧ (∀ s : Str, endsWithStr htmlSuffix (trimJS s) = false →
      render P rf resolvePath enableCache fs cache (Value.vStr s) ctx
        = ⟨Except.ok (renderCore P rf s ctx), cache, false⟩)
    ∧ (∀ v : Value, (∀ s, v ≠ Value.vStr s) →
      render P rf resolvePath enableCache fs cache v ctx
        = ⟨Except.ok (some ([], [])), cache, false⟩) := by
  refine ⟨?_, ?_, ?_⟩
  · intro s h
    simp [render, h]
  · intro s h
    simp [render, h]
  · intro v hv
    cases v with
    | vStr s => exact absurd rfl (hv s)
    | vNum n => rfl
    | vNaN => rfl
    | vBool b => rfl
    | vNull => rfl
    | vArr xs => rfl
    | vObj fs => rfl

/-- C10 witness: `page.html` dispatches to the file path; a plain
template string is rendered inline with the cache untouched and no
byte read; a numeric argument yields the empty string. -/
theorem render_dispatch_witness :
    render [] 1 (fun s => s) true ⟨[], []⟩ [] (Value.vStr "page.html".toList) (Value.vObj [])
      = renderTemplateFile [] 1 (fun s => s) true ⟨[], []⟩ [] "page.html".toList (Value.vObj [])
    ∧ render [] 1 (fun s => s) true ⟨[], []⟩ [] (Value.vStr "hi".toList) (Value.vObj [])
      = ⟨Except.ok (renderCore [] 1 "hi".toList (Value.vObj [])), [], false⟩
    ∧ render [] 1 (fun s => s) true ⟨[], []⟩ [] (Value.vNum 5) (Value.vObj [])
      = ⟨Except.ok (some ([], [])), [], false⟩ := by
  have h := render_dispatch [] 1 (fun s => s) true ⟨[], []⟩ [] (Value.vObj [])
  exact ⟨h.1 "page.html".toList (by decide), h.2.1 "hi".toList (by decide),
    h.2.2 (Value.vNum 5) (fun s hs => Value.noConfusion hs)⟩

end TemplateSMD
